import Mathlib

/-!
# cpc: Concurrent Process Controller

A shallow embedding of `src/cpc.c` and `src/cpc.h`.

* C strings are lists of characters (the characters before the terminating NUL).
* Status codes, exit codes and signal numbers are natural numbers; `processCount`,
  `numInstances`, `infoIndex` and process ids are integers, as in the source.
* The operating system is an explicit environment `Env`: the results of `stat`,
  `malloc`, `fopen`, `fgets`, `tempnam`, `fork` and `wait` are read from it, and the
  kernel's table of unreaped children is part of the run state.
* Behaviour that C leaves undefined (writing past a fixed buffer, reading an
  indeterminate value, indexing past the slot array) stops the run with a `Fault`.
-/

namespace Cpc

/-- A C string: the characters before the terminating NUL. -/
abbrev CStr := List Char

/-! ## cpc.h -/

def SUCCESS : Nat := 0
def ARG_ERROR : Nat := 1
def MEM_ERROR : Nat := 2
def SYS_ERROR : Nat := 3
def IO_ERROR : Nat := 4
def OTHER_ERROR : Nat := 5

def DATASET_LEN : Nat := 100
def COMMAND_LEN : Nat := 200
def SWITCHES_LEN : Nat := 300
def OPTARGS_LEN : Nat := 200

/-- Process information structure (`info_st`). A field is `none` while it holds no
usable value: `pid` before the first assignment by `createChild`, a file name before
its first assignment, when `tempnam` returned NULL, and after `getOutput` freed it. -/
structure info_st where
  pid : Option Int
  outFile : Option CStr
  errFile : Option CStr
deriving DecidableEq, Repr

/-! ## The wait-status macros of `<sys/wait.h>`

`getChildStatus` classifies the raw status with `WIFEXITED`, `WEXITSTATUS`,
`WIFSIGNALED` and `WTERMSIG`. They come from the C library, not from the repository;
they are written here as glibc defines them. The raw status is the bit pattern of the
`int` filled in by `wait`, read as a natural number. -/

/-- The macro `WTERMSIG(status)`, which is `status & 0x7f`. -/
def WTERMSIG (status : Nat) : Nat := status &&& 0x7f

/-- The macro `WEXITSTATUS(status)`, which is `(status & 0xff00) >> 8`. -/
def WEXITSTATUS (status : Nat) : Nat := (status &&& 0xff00) >>> 8

/-- The macro `WIFEXITED(status)`, which is `WTERMSIG(status) == 0`. -/
def WIFEXITED (status : Nat) : Bool := WTERMSIG status == 0

/-- Conversion of a small non-negative value to `signed char`. -/
def toSignedChar (n : Nat) : Int :=
  if n % 256 < 128 then ((n % 256 : Nat) : Int) else ((n % 256 : Nat) : Int) - 256

/-- The macro `WIFSIGNALED(status)`, which is
`((signed char) ((status & 0x7f) + 1) >> 1) > 0`. -/
def WIFSIGNALED (status : Nat) : Bool :=
  decide (0 < toSignedChar ((status &&& 0x7f) + 1) >>> 1)

/-! ## Output of the controller -/

/-- One write to standard output or standard error. The wording of banners and
messages is not modelled; a write records which message it is and its arguments. -/
inductive Write where
  | time
  | spawned (childpid : Int) (args : List CStr)
  | exited (childpid : Int) (status : Nat)
  | signaled (childpid : Int) (status : Nat)
  | unknown (childpid : Int)
  | startBanner (childpid : Int)
  | cat (file : CStr)
  | endBanner (childpid : Int)
  | exiting (status : Nat)
  | tempnamNull
  | forkFailed
  | mallocFailed
  | fopenFailed
deriving DecidableEq, Repr

/-! ## getChildStatus -/

/-- The function `getChildStatus`: the status it returns and what it prints. -/
def getChildStatus (childStatus : Nat) (childpid : Int) : Nat × List Write :=
  if WIFEXITED childStatus then
    (WEXITSTATUS childStatus, [Write.time, Write.exited childpid (WEXITSTATUS childStatus)])
  else if WIFSIGNALED childStatus then
    (WTERMSIG childStatus, [Write.signaled childpid (WTERMSIG childStatus)])
  else
    (OTHER_ERROR, [Write.unknown childpid])

/-! ## makeArgList -/

/-- Undefined behaviour that ends a run. -/
inductive Fault where
  /-- The call of `sprintf` wrote past `switches[SWITCHES_LEN]`. -/
  | switchesOverflow
  /-- The loop of `makeArgList` wrote past `pArgList[99]`. -/
  | argListOverflow
  /-- An indeterminate `pid` was read. -/
  | uninitRead
  /-- The slot array was indexed outside `0 .. numInstances-1`. -/
  | outOfBounds
  /-- A NULL, freed or indeterminate file name was passed to `strcat`. -/
  | badFileName
  /-- The call of `wait` found no child; it leaves the status unset. -/
  | noChild
  /-- The call of `fclose` got a NULL stream. -/
  | fcloseNull
  /-- The iteration bound of the token loop was reached (this never happens). -/
  | fuel
deriving DecidableEq, Repr

/-- The delimiter set `" \n"` passed to `strtok`. -/
def isDelim (c : Char) : Bool := c == ' ' || c == '\n'

/-- One call of `strtok` on the text that is left: skip delimiters; at the end of the
string return NULL; otherwise return the token that runs to the next delimiter, and
the text after that delimiter (which `strtok` overwrites with NUL). -/
def strtok (s : CStr) : Option (CStr × CStr) :=
  match s.dropWhile isDelim with
  | [] => none
  | c :: cs =>
    some ((c :: cs).takeWhile (fun x => !isDelim x),
          ((c :: cs).dropWhile (fun x => !isDelim x)).drop 1)

/-- The `while (token)` loop of `makeArgList`. `args` holds `pArgList[0 .. argCount-1]`;
the array has 100 entries. NULL is `none`. -/
def makeArgListLoop : Nat → Option (CStr × CStr) → List (Option CStr) →
    Except Fault (List (Option CStr))
  | _, none, args =>
    if args.length < 100 then Except.ok (args ++ [none]) else Except.error Fault.argListOverflow
  | 0, some _, _ => Except.error Fault.fuel
  | fuel + 1, some (token, rest), args =>
    if args.length < 100 then makeArgListLoop fuel (strtok rest) (args ++ [some token])
    else Except.error Fault.argListOverflow

/-- The function `makeArgList`: the contents of `pArgList` up to and including the
terminating NULL. -/
def makeArgList (command switches : CStr) : Except Fault (List (Option CStr)) :=
  makeArgListLoop switches.length (strtok switches) [some command]

/-- The call `sprintf(switches, "%s %s\n", dataSubset, optargs)` of `main`;
`switches` has `SWITCHES_LEN + 1` bytes. -/
def sprintfSwitches (dataSubset optargs : CStr) : Except Fault CStr :=
  if (dataSubset ++ ' ' :: optargs ++ ['\n']).length ≤ SWITCHES_LEN then
    Except.ok (dataSubset ++ ' ' :: optargs ++ ['\n'])
  else Except.error Fault.switchesOverflow

/-- Lines 94-95 of `main`: build `switches`, then the argument list. -/
def buildArgList (command dataSubset optargs : CStr) : Except Fault (List (Option CStr)) :=
  match sprintfSwitches dataSubset optargs with
  | Except.error f => Except.error f
  | Except.ok switches => makeArgList command switches

/-- The tokens of a string as the specification words them: the maximal non-empty runs
of characters other than space and newline. -/
def specTokens (s : CStr) : List CStr :=
  (s.splitOnP (fun c => c = ' ' ∨ c = '\n')).filter (fun t => t ≠ [])

/-! ## The environment -/

/-- The kernel's record of a child of the controller that was forked and has not been
waited for. Besides the process id it remembers how `createChild` launched it: the slot
index it was called with, the two capture files the child writes to (the names stored
in that slot at the time of the `fork`), and the arguments of `execvp`. -/
structure Child where
  pid : Int
  infoIndex : Int
  outFile : CStr
  errFile : CStr
  args : List CStr
deriving DecidableEq, Repr

/-- Results of the library calls made by one call of `createChild`: the two calls of
`tempnam` (`none` is NULL) and the return value of `fork` in the parent (`none` is -1,
`some p` is the process id of the new child). The child side of `fork` is another
process and is not part of the controller's run. -/
structure Launch where
  outFile : Option CStr
  errFile : Option CStr
  fork : Option Int
deriving DecidableEq, Repr

/-- Everything the controller reads from outside.

The first six fields are the values of `status`, `dataSetFile`, `command`,
`numInstancesArg`, `numInstances` and `optargs` when the `getopt` loop of `checkArgs`
ends (the loop itself is not modelled). `records` are the strings that the successive
calls of `fgets` leave in `dataSubset` until it returns NULL; how the stream produces
them from the lines of the data set file is not modelled. `launch n k` and `wait n k`
are the results of the library calls of the `n`-th call of `createChild`, respectively
of `wait`, made while `k` is the kernel's table of unreaped children; `wait` yields the
process id and the raw status. -/
structure Env where
  optStatus : Nat
  dataSetFile : CStr
  command : CStr
  numInstancesArg : CStr
  numInstances : Int
  optargs : CStr
  statDataSetFile : Bool
  statCommand : Bool
  malloc : Bool
  fopen : Bool
  records : List CStr
  launch : Nat → List Child → Launch
  wait : Nat → List Child → Int × Nat

/-! ## The run state -/

/-- Record of one completed call of `waitForChild`: what `wait` returned, the kernel's
record of the process with that id, the index found by `getOutput`, and the status
returned. -/
structure ReapCall where
  childpid : Int
  childStatus : Nat
  child : Option Child
  infoIndex : Int
  status : Nat
deriving DecidableEq, Repr

/-- Record of one call of `createChild` by `main`: its arguments, the value of
`processCount` and the kernel's table of unreaped children at the call, the
`waitForChild` call of the same loop iteration (when the pool was full), and the status
returned. -/
structure CreateCall where
  infoIndex : Int
  args : List (Option CStr)
  processCount : Int
  kernel : List Child
  reaped : Option ReapCall
  status : Nat
deriving DecidableEq, Repr

/-- What a run records, in program order: the calls made by `main` with their results,
and every value assigned to `processCount`. -/
inductive Event where
  | checkArgs (status : Nat)
  | initializeCall (status : Nat)
  | fgets (dataSubset : CStr)
  | waitForChild (call : ReapCall)
  | createChild (call : CreateCall)
  | processCount (value : Int)
deriving DecidableEq, Repr

/-- State of a run of `main`. `status`, `processCount`, `childStatus` and `infoIndex`
are the local variables of `main` and `pInfo` is the slot array. `kernel` is the
kernel's table of unreaped children; `creations` and `waits` count the calls of
`createChild` and `wait`. `outBuf` is the stdio buffer of standard output, `out` what
has reached file descriptor 1 and `err` what has reached file descriptor 2. `log` is the
record of the run, `lastReap` the latest `waitForChild` call. `fault` is set when the
run hit undefined behaviour, `exit` when `main` returned. -/
structure Run where
  status : Nat
  processCount : Int
  childStatus : Nat
  infoIndex : Int
  pInfo : List info_st
  kernel : List Child
  creations : Nat
  waits : Nat
  outBuf : List Write
  out : List Write
  err : List Write
  log : List Event
  lastReap : Option ReapCall
  fault : Option Fault
  exit : Option Nat
deriving Repr

/-- The slot `pInfo[i]`, when `i` is inside the array. -/
def slotAt (pInfo : List info_st) (i : Int) : Option info_st :=
  if 0 ≤ i then pInfo[i.toNat]? else none

/-- The array after `pInfo[i] = slot`. -/
def setSlot (pInfo : List info_st) (i : Int) (slot : info_st) : List info_st :=
  if 0 ≤ i then pInfo.set i.toNat slot else pInfo

/-- The kernel's table after the child with the given process id was waited for. -/
def reap (childpid : Int) : List Child → List Child
  | [] => []
  | c :: cs => if c.pid = childpid then cs else c :: reap childpid cs

/-! ## checkArgs and initialize

The name of the C function `initialize` is reserved in Lean; it is `initializeStatus`
here. -/

/-- The function `checkArgs` after its `getopt` loop: the status it returns. Its
messages are not modelled. `statDataSetFile` and `statCommand` tell whether the two
calls of `stat` succeed. -/
def checkArgs (env : Env) : Nat :=
  let status :=
    if env.optStatus = SUCCESS then
      if env.dataSetFile.length = 0 ∨ env.command.length = 0 ∨ env.numInstancesArg.length = 0 then
        ARG_ERROR
      else if env.numInstances ≤ 0 then ARG_ERROR
      else env.optStatus
    else env.optStatus
  if status = SUCCESS then
    let status := if env.statDataSetFile then status else SYS_ERROR
    if env.statCommand then status else SYS_ERROR
  else status

/-- The function `initialize`: the status it returns. -/
def initializeStatus (env : Env) : Nat :=
  let status := if env.malloc then SUCCESS else MEM_ERROR
  if env.fopen then status else IO_ERROR

/-! ## createChild -/

/-- The strings of an argument list up to its terminating NULL, as the `while (*pArgList)`
loop of `createChild` and `execvp` read it. -/
def argStrings : List (Option CStr) → List CStr
  | some a :: rest => a :: argStrings rest
  | _ => []

/-- The function `createChild` in the parent process: the status it returns and the
state after it. -/
def createChild (env : Env) (infoIndex : Int) (pArgList : List (Option CStr)) (r : Run) :
    Nat × Run :=
  let l := env.launch r.creations r.kernel
  match slotAt r.pInfo infoIndex with
  | none => (SYS_ERROR, { r with creations := r.creations + 1, fault := some Fault.outOfBounds })
  | some slot =>
    let r1 := { r with
      creations := r.creations + 1
      pInfo := setSlot r.pInfo infoIndex { slot with outFile := l.outFile, errFile := l.errFile } }
    match l.outFile, l.errFile with
    | some outFile, some errFile =>
      match l.fork with
      | none => (SYS_ERROR, { r1 with err := r1.err ++ [Write.forkFailed] })
      | some childpid =>
        (SUCCESS, { r1 with
          outBuf := r1.outBuf ++ [Write.time, Write.spawned childpid (argStrings pArgList)]
          pInfo := setSlot r.pInfo infoIndex
            { pid := some childpid, outFile := some outFile, errFile := some errFile }
          kernel := r1.kernel ++
            [{ pid := childpid, infoIndex := infoIndex, outFile := outFile, errFile := errFile,
               args := argStrings pArgList }] })
    | _, _ => (SYS_ERROR, { r1 with err := r1.err ++ [Write.tempnamNull] })

/-! ## waitForChild and getOutput -/

/-- The scan of `getOutput`: starting at index `i` with the slots from `i` on, advance
while `pInfo[i].pid != childpid`. -/
def findSlot (childpid : Int) : List info_st → Int → Except Fault Int
  | [], _ => Except.error Fault.outOfBounds
  | slot :: rest, i =>
    match slot.pid with
    | none => Except.error Fault.uninitRead
    | some p => if p = childpid then Except.ok i else findSlot childpid rest (i + 1)

/-- The function `getOutput`. The banner is flushed before `cat` writes the capture
file to the descriptor; afterwards the files are removed and their names freed. -/
def getOutput (childpid : Int) (r : Run) : Run :=
  match findSlot childpid r.pInfo 0 with
  | Except.error f => { r with fault := some f }
  | Except.ok i =>
    match slotAt r.pInfo i with
    | none => { r with infoIndex := i, fault := some Fault.outOfBounds }
    | some slot =>
      match slot.outFile with
      | none =>
        { r with
          infoIndex := i
          out := r.out ++ r.outBuf ++ [Write.startBanner childpid]
          outBuf := []
          fault := some Fault.badFileName }
      | some outFile =>
        match slot.errFile with
        | none =>
          { r with
            infoIndex := i
            out := r.out ++ r.outBuf ++
              [Write.startBanner childpid, Write.cat outFile, Write.endBanner childpid]
            outBuf := []
            err := r.err ++ [Write.startBanner childpid]
            fault := some Fault.badFileName }
        | some errFile =>
          { r with
            infoIndex := i
            out := r.out ++ r.outBuf ++
              [Write.startBanner childpid, Write.cat outFile, Write.endBanner childpid]
            outBuf := []
            err := r.err ++
              [Write.startBanner childpid, Write.cat errFile, Write.endBanner childpid]
            pInfo := setSlot r.pInfo i { slot with outFile := none, errFile := none } }

/-- The function `waitForChild`: the status it returns and the state after it (with
`infoIndex` set through the pointer argument). -/
def waitForChild (env : Env) (r : Run) : Nat × Run :=
  match r.kernel with
  | [] => (0, { r with waits := r.waits + 1, fault := some Fault.noChild })
  | c :: cs =>
    let w := env.wait r.waits (c :: cs)
    let st := getChildStatus w.2 w.1
    let r1 := getOutput w.1 { r with
      waits := r.waits + 1
      kernel := reap w.1 (c :: cs)
      outBuf := r.outBuf ++ st.2 }
    match r1.fault with
    | some _ => (st.1, r1)
    | none =>
      let call : ReapCall :=
        { childpid := w.1, childStatus := w.2,
          child := (c :: cs).find? (fun k => k.pid = w.1),
          infoIndex := r1.infoIndex, status := st.1 }
      (st.1, { r1 with log := r1.log ++ [Event.waitForChild call], lastReap := some call })

/-! ## main -/

/-- The statements `childStatus |= waitForChild(&infoIndex); processCount--;`
(lines 81-82 and 108-109). -/
def reapOne (env : Env) (r : Run) : Run :=
  let w := waitForChild env r
  match w.2.fault with
  | some _ => w.2
  | none =>
    { w.2 with
      childStatus := w.2.childStatus ||| w.1
      processCount := w.2.processCount - 1
      log := w.2.log ++ [Event.processCount (w.2.processCount - 1)] }

/-- Lines 94-99: build the argument list, call `createChild`, count the child. -/
def launchOne (env : Env) (dataSubset : CStr) (reaped : Option ReapCall) (r : Run) : Run :=
  match buildArgList env.command dataSubset env.optargs with
  | Except.error f => { r with fault := some f }
  | Except.ok pArgList =>
    let c := createChild env r.infoIndex pArgList r
    match c.2.fault with
    | some _ => c.2
    | none =>
      let call : CreateCall :=
        { infoIndex := r.infoIndex, args := pArgList, processCount := r.processCount,
          kernel := r.kernel, reaped := reaped, status := c.1 }
      if c.1 = SUCCESS then
        { c.2 with
          status := c.1
          processCount := c.2.processCount + 1
          log := c.2.log ++ [Event.createChild call, Event.processCount (c.2.processCount + 1)] }
      else
        { c.2 with status := c.1, log := c.2.log ++ [Event.createChild call] }

/-- One iteration of the launch loop (lines 64-100) for the record just read. -/
def launchBody (env : Env) (dataSubset : CStr) (r : Run) : Run :=
  let r0 := { r with log := r.log ++ [Event.fgets dataSubset] }
  if r0.processCount = env.numInstances then
    let r1 := reapOne env r0
    match r1.fault with
    | some _ => r1
    | none => launchOne env dataSubset r1.lastReap r1
  else
    launchOne env dataSubset none { r0 with infoIndex := r0.processCount }

/-- The launch loop `while (status == SUCCESS && fgets(dataSubset, 200, fpDS))` over
the records still unread. -/
def launchLoop (env : Env) : List CStr → Run → Run
  | [], r => r
  | dataSubset :: rest, r =>
    match r.fault with
    | some _ => r
    | none =>
      if r.status = SUCCESS then launchLoop env rest (launchBody env dataSubset r) else r

/-- The drain loop `while (processCount > 0)`, run for at most the given number of
iterations; `main` passes the value of `processCount`, which is enough. -/
def drainLoop (env : Env) : Nat → Run → Run
  | 0, r => r
  | fuel + 1, r =>
    match r.fault with
    | some _ => r
    | none => if 0 < r.processCount then drainLoop env fuel (reapOne env r) else r

/-- The function `cleanUp`: `fclose(fpDS)` needs the stream that `fopen` returned. -/
def cleanUp (env : Env) (r : Run) : Run :=
  match r.fault with
  | some _ => r
  | none => if env.fopen then r else { r with fault := some Fault.fcloseNull }

/-- The state in which `main` starts: nothing allocated, nothing written. The initial
values of the local variables other than `status` and `childStatus` are indeterminate
in C; each is assigned before it is read. -/
def initialRun : Run :=
  { status := SUCCESS, processCount := 0, childStatus := 0, infoIndex := 0, pInfo := [],
    kernel := [], creations := 0, waits := 0, outBuf := [], out := [], err := [], log := [],
    lastReap := none, fault := none, exit := none }

/-- The slot array right after `malloc`: `numInstances` slots with indeterminate
contents. -/
def freshSlots (numInstances : Int) : List info_st :=
  List.replicate numInstances.toNat { pid := none, outFile := none, errFile := none }

/-- Lines 57-58: `status = initialize(); processCount = 0;`. When `malloc` succeeds
`pInfo` points to the fresh slot array. -/
def enterController (env : Env) (r : Run) : Run :=
  { r with
    status := initializeStatus env
    processCount := 0
    pInfo := if env.malloc then freshSlots env.numInstances else []
    err := r.err ++ (if env.malloc then [] else [Write.mallocFailed]) ++
      (if env.fopen then [] else [Write.fopenFailed])
    log := r.log ++ [Event.initializeCall (initializeStatus env), Event.processCount 0] }

/-- The body of `if ((status = checkArgs(argc, argv)) == SUCCESS)` (lines 56-113). -/
def controller (env : Env) (r : Run) : Run :=
  let r2 := launchLoop env env.records (enterController env r)
  let r3 := drainLoop env r2.processCount.toNat r2
  cleanUp env r3

/-- The state after `status = checkArgs(argc, argv)`. -/
def startRun (env : Env) : Run :=
  { initialRun with status := checkArgs env, log := [Event.checkArgs (checkArgs env)] }

/-- Lines 55-113 of `main`: the call of `checkArgs` and, when it succeeds, the
controller. -/
def beforeReturn (env : Env) : Run :=
  if checkArgs env = SUCCESS then controller env (startRun env) else startRun env

/-- Lines 115-116 of `main`: print and return `status | childStatus`; returning from
`main` writes out the stdio buffer. -/
def returnStatus (r : Run) : Run :=
  match r.fault with
  | some _ => r
  | none =>
    { r with
      out := r.out ++ r.outBuf ++ [Write.exiting (r.status ||| r.childStatus)]
      outBuf := []
      exit := some (r.status ||| r.childStatus) }

/-- The function `main`. When the run reaches the `return`, `exit` holds the value
returned. -/
def main (env : Env) : Run := returnStatus (beforeReturn env)

/-! ## Reading the record of a run -/

/-- The `waitForChild` call of an event. -/
def Event.reapCall : Event → Option ReapCall
  | Event.waitForChild c => some c
  | _ => none

/-- The `createChild` call of an event. -/
def Event.createCall : Event → Option CreateCall
  | Event.createChild c => some c
  | _ => none

/-- The record read by the `fgets` call of an event. -/
def Event.record : Event → Option CStr
  | Event.fgets d => some d
  | _ => none

/-- The status returned by the controller-level call of an event: `checkArgs`,
`initialize` or `createChild`. -/
def Event.callStatus : Event → Option Nat
  | Event.checkArgs s => some s
  | Event.initializeCall s => some s
  | Event.createChild c => some c.status
  | _ => none

/-- The value an event assigns to `processCount`. -/
def Event.count : Event → Option Int
  | Event.processCount v => some v
  | _ => none

/-- The completed `waitForChild` calls of a run, in order. -/
def reapCalls (log : List Event) : List ReapCall := log.filterMap Event.reapCall

/-- The `createChild` calls of a run, in order. -/
def createCalls (log : List Event) : List CreateCall := log.filterMap Event.createCall

/-- The records consumed by `fgets`, in order. -/
def recordsRead (log : List Event) : List CStr := log.filterMap Event.record

/-- The statuses returned by `checkArgs`, `initialize` and every `createChild`. -/
def callStatuses (log : List Event) : List Nat := log.filterMap Event.callStatus

/-- The values assigned to `processCount`, in order. -/
def processCounts (log : List Event) : List Int := log.filterMap Event.count

/-- Bitwise OR of a list of codes. -/
def orAll (codes : List Nat) : Nat := codes.foldr (fun a b => a ||| b) 0

/-- Everything written to standard output so far, the stdio buffer included (it is
written out at the next `fflush` and when `main` returns). -/
def Run.stdout (r : Run) : List Write := r.out ++ r.outBuf

/-- Whether a write is part of a framed block: a banner or the copy of a capture file. -/
def isBlockWrite : Write → Bool
  | Write.startBanner _ => true
  | Write.cat _ => true
  | Write.endBanner _ => true
  | _ => false

/-- The framed blocks of an output stream, in order: the process id named by the
banners and the capture file copied between them. The result is `none` unless every
start banner is followed at once by one `cat` and the end banner for the same process
id, and no `cat` or end banner stands elsewhere. -/
def blocksOf : List Write → Option (List (Int × CStr))
  | [] => some []
  | Write.startBanner p :: Write.cat f :: Write.endBanner q :: rest =>
    if p = q then (blocksOf rest).map (fun bs => (p, f) :: bs) else none
  | w :: rest => if isBlockWrite w then none else blocksOf rest

/-! ## Assumptions on the environment -/

/-- The guarantees of the operating system: `wait` returns the process id of a child
that was forked and not yet waited for, and `fork` never returns the process id of a
child that is still unreaped. -/
def WellBehaved (env : Env) : Prop :=
  (∀ n k, k ≠ [] → (env.wait n k).1 ∈ k.map Child.pid) ∧
  (∀ n k p, (env.launch n k).fork = some p → p ∉ k.map Child.pid)

/-- Every record, put together with the optional arguments, fits the buffers of
`main`: `switches` and the 100 entries of `pArgList`. -/
def ArgsFit (env : Env) : Prop :=
  ∀ d ∈ env.records,
    d.length + 1 + env.optargs.length + 1 ≤ SWITCHES_LEN ∧
    (specTokens d).length + (specTokens env.optargs).length < 99

/-- Every call of `createChild` succeeds: both `tempnam` calls and `fork`. -/
def LaunchesSucceed (env : Env) : Prop :=
  ∀ n k, ∃ outFile errFile childpid,
    env.launch n k = { outFile := some outFile, errFile := some errFile, fork := some childpid }

/-! ## The outcomes of one step, written out -/

/-- What the `wait` call of the next `waitForChild` returns. -/
def waited (env : Env) (r : Run) : Int × Nat := env.wait r.waits r.kernel

/-- The record of the next `waitForChild` call when `getOutput` finds index `i`. -/
def reapCallOf (env : Env) (r : Run) (i : Int) : ReapCall :=
  { childpid := (waited env r).1
    childStatus := (waited env r).2
    child := r.kernel.find? (fun k => k.pid = (waited env r).1)
    infoIndex := i
    status := (getChildStatus (waited env r).2 (waited env r).1).1 }

/-- The state after `childStatus |= waitForChild(&infoIndex); processCount--;` when
`getOutput` finds index `i` holding `slot` with the two file names. -/
def afterReap (env : Env) (r : Run) (i : Int) (slot : info_st) (outFile errFile : CStr) : Run :=
  { r with
    waits := r.waits + 1
    kernel := reap (waited env r).1 r.kernel
    infoIndex := i
    outBuf := []
    out := r.out ++ (r.outBuf ++ (getChildStatus (waited env r).2 (waited env r).1).2) ++
      [Write.startBanner (waited env r).1, Write.cat outFile, Write.endBanner (waited env r).1]
    err := r.err ++
      [Write.startBanner (waited env r).1, Write.cat errFile, Write.endBanner (waited env r).1]
    pInfo := setSlot r.pInfo i { slot with outFile := none, errFile := none }
    childStatus := r.childStatus ||| (getChildStatus (waited env r).2 (waited env r).1).1
    processCount := r.processCount - 1
    lastReap := some (reapCallOf env r i)
    log := r.log ++ [Event.waitForChild (reapCallOf env r i), Event.processCount (r.processCount - 1)] }

/-- The record of the next `createChild` call. -/
def createCallOf (r : Run) (pArgList : List (Option CStr)) (reaped : Option ReapCall)
    (status : Nat) : CreateCall :=
  { infoIndex := r.infoIndex, args := pArgList, processCount := r.processCount,
    kernel := r.kernel, reaped := reaped, status := status }

/-- The state after lines 94-99 when `createChild` succeeds. -/
def afterLaunch (r : Run) (pArgList : List (Option CStr)) (reaped : Option ReapCall)
    (outFile errFile : CStr) (childpid : Int) : Run :=
  { r with
    creations := r.creations + 1
    outBuf := r.outBuf ++ [Write.time, Write.spawned childpid (argStrings pArgList)]
    pInfo := setSlot r.pInfo r.infoIndex
      { pid := some childpid, outFile := some outFile, errFile := some errFile }
    kernel := r.kernel ++
      [{ pid := childpid, infoIndex := r.infoIndex, outFile := outFile, errFile := errFile,
         args := argStrings pArgList }]
    status := SUCCESS
    processCount := r.processCount + 1
    log := r.log ++ [Event.createChild (createCallOf r pArgList reaped SUCCESS),
      Event.processCount (r.processCount + 1)] }

/-- The state after lines 94-99 when `createChild` fails: the slot keeps its `pid` and
gets the two results of `tempnam`; `message` is what was written to standard error. -/
def afterFailedLaunch (r : Run) (pArgList : List (Option CStr)) (reaped : Option ReapCall)
    (slot : info_st) (outFile errFile : Option CStr) (message : Write) : Run :=
  { r with
    creations := r.creations + 1
    pInfo := setSlot r.pInfo r.infoIndex { slot with outFile := outFile, errFile := errFile }
    err := r.err ++ [message]
    status := SYS_ERROR
    log := r.log ++ [Event.createChild (createCallOf r pArgList reaped SYS_ERROR)] }

/-! ## Invariants of the slot pool -/

/-- Slot `j` holds a child that was launched and not yet reaped. -/
def Occupied (r : Run) (j : Int) : Prop := ∃ c ∈ r.kernel, c.infoIndex = j

/-- The slot array and the kernel's table agree. Every unreaped child is recorded in
the slot it was launched in, with its process id and capture files; process ids and
slots of unreaped children are pairwise distinct; every slot below an occupied one has a
`pid` that was written; and a slot that shows the process id of an unreaped child is the
slot of that child. -/
structure Sound (env : Env) (r : Run) : Prop where
  len : (r.pInfo.length : Int) = env.numInstances
  count : r.processCount = r.kernel.length
  bound : r.processCount ≤ env.numInstances
  slot : ∀ c ∈ r.kernel, slotAt r.pInfo c.infoIndex =
    some { pid := some c.pid, outFile := some c.outFile, errFile := some c.errFile }
  pids : (r.kernel.map Child.pid).Nodup
  slots : (r.kernel.map Child.infoIndex).Nodup
  below : ∀ c ∈ r.kernel, ∀ j, 0 ≤ j → j < c.infoIndex →
    ∃ s p, slotAt r.pInfo j = some s ∧ s.pid = some p
  owner : ∀ j s, slotAt r.pInfo j = some s → ∀ c ∈ r.kernel, s.pid = some c.pid → c.infoIndex = j

/-- At the head of the launch loop, while `status` is SUCCESS: the occupied slots are
exactly `0 .. processCount-1`, and no other slot has a `pid` that was written. -/
structure AtHead (r : Run) : Prop where
  occ : ∀ j, Occupied r j ↔ (0 ≤ j ∧ j < r.processCount)
  written : ∀ j s, slotAt r.pInfo j = some s → s.pid ≠ none → Occupied r j

/-- Just before `createChild(infoIndex, pArgList)`: `infoIndex` is a free slot of the
array, the other slots up to `processCount` are the occupied ones, and no slot other
than `infoIndex` and the occupied ones has a `pid` that was written. -/
structure Ready (env : Env) (r : Run) : Prop where
  lo : 0 ≤ r.infoIndex
  hi : r.infoIndex < r.processCount + 1
  room : r.processCount < env.numInstances
  occ : ∀ j, Occupied r j ↔ (0 ≤ j ∧ j < r.processCount + 1 ∧ j ≠ r.infoIndex)
  written : ∀ j s, j ≠ r.infoIndex → slotAt r.pInfo j = some s → s.pid ≠ none → Occupied r j

/-- A `waitForChild` call attributed its child to the right slot: the process id that
`wait` returned is the one of an unreaped child, and the index that `getOutput` found
is inside the array and is the slot that child was launched in. -/
def ReapCall.Attributed (numInstances : Int) (call : ReapCall) : Prop :=
  ∃ c, call.child = some c ∧ c.pid = call.childpid ∧ call.infoIndex = c.infoIndex ∧
    0 ≤ call.infoIndex ∧ call.infoIndex < numInstances

/-- A `createChild` call targets a free slot: the index is inside the array, no
unreaped child lives in it, no two unreaped children share a slot, and `processCount`
is the number of unreaped children. When the pool was not full the index is
`processCount` and the occupied slots are `0 .. processCount-1`; when it was full the
index is the one the `waitForChild` call of the same iteration found, which is the slot
of the child it reaped. -/
def CreateCall.Free (numInstances : Int) (e : CreateCall) : Prop :=
  0 ≤ e.infoIndex ∧ e.infoIndex < numInstances ∧
  (∀ c ∈ e.kernel, c.infoIndex ≠ e.infoIndex) ∧
  (e.kernel.map Child.infoIndex).Nodup ∧
  (e.kernel.length : Int) = e.processCount ∧
  match e.reaped with
  | none =>
    e.processCount < numInstances ∧ e.infoIndex = e.processCount ∧
    ∀ j, (∃ c ∈ e.kernel, c.infoIndex = j) ↔ (0 ≤ j ∧ j < e.processCount)
  | some call =>
    e.processCount = numInstances - 1 ∧ call.infoIndex = e.infoIndex ∧
    ∃ c, call.child = some c ∧ c.infoIndex = e.infoIndex

/-- The blocks that the reaped children leave on standard output: for each child its
process id and its standard-output capture file. -/
def outBlocks (children : List Child) : List (Int × CStr) :=
  children.map (fun c => (c.pid, c.outFile))

/-- The blocks that the reaped children leave on standard error. -/
def errBlocks (children : List Child) : List (Int × CStr) :=
  children.map (fun c => (c.pid, c.errFile))

/-- What holds of a run under the guarantees of the operating system, at the head of
each loop iteration and at the end: every reap was attributed to the right slot, every
launch went to a free slot, both output streams are the framed blocks of the reaped
children in reap order, the only faults are `fclose(NULL)` after a failed `fopen` and a
buffer overflow for a record that was read, and the slot pool is sound while the run goes on. -/
structure Good (env : Env) (r : Run) : Prop where
  reaps : ∀ call ∈ reapCalls r.log, call.Attributed env.numInstances
  creates : ∀ e ∈ createCalls r.log, e.Free env.numInstances
  framed : ∃ children : List Child,
    (reapCalls r.log).map ReapCall.child = children.map some ∧
    blocksOf r.stdout = some (outBlocks children) ∧
    blocksOf r.err = some (errBlocks children)
  faults : ∀ f, r.fault = some f →
    (f = Fault.fcloseNull ∧ env.fopen = false) ∨
    ∃ d ∈ recordsRead r.log, buildArgList env.command d env.optargs = Except.error f
  read : ∀ d ∈ recordsRead r.log, d ∈ env.records
  sound : r.fault = none → (r.status = SUCCESS ∨ 0 < r.processCount) → Sound env r

/-! ## Invariants of the controller loop -/

/-- Event `a` is a failed `createChild` call only if event `b` is neither a record read
nor a `createChild` call. -/
def Stops (a b : Event) : Prop :=
  ∀ c, a = Event.createChild c → c.status ≠ SUCCESS → b.record = none ∧ b.createCall = none

/-- Event `a` is a completed `waitForChild` call only if event `b`, when it is a
`createChild` call, goes to the slot that its own iteration reaped. -/
def Reuses (a b : Event) : Prop :=
  ∀ call e, a = Event.waitForChild call → b = Event.createChild e → e.reaped ≠ none

/-- What holds of every run, whatever the environment does, at the head of each loop
iteration and at the end. `pending` are the records read for which `createChild` was
not called yet. -/
structure Acct (env : Env) (pending : List CStr) (r : Run) : Prop where
  counts : ∀ v ∈ processCounts r.log, 0 ≤ v ∧ v ≤ env.numInstances
  order : r.log.Pairwise Stops
  reapStatus : ∀ c ∈ reapCalls r.log, c.status = (getChildStatus c.childStatus c.childpid).1
  launched : ∀ c ∈ createCalls r.log, c.status ≠ SUCCESS →
    ∃ n k, (env.launch n k).outFile = none ∨ (env.launch n k).errFile = none ∨
      (env.launch n k).fork = none
  noexit : r.exit = none
  pc : 1 ≤ env.numInstances → r.fault = none →
    0 ≤ r.processCount ∧ r.processCount ≤ env.numInstances
  child : r.fault = none → r.childStatus = orAll ((reapCalls r.log).map ReapCall.status)
  st : r.fault = none → (r.status = SUCCESS ↔ ∀ s ∈ callStatuses r.log, s = SUCCESS)
  cnt : r.fault = none →
    r.processCount + (reapCalls r.log).length =
      ((createCalls r.log).filter (fun c => c.status = SUCCESS)).length
  args : r.fault = none →
    (createCalls r.log).map (fun c => Except.ok c.args) ++
        pending.map (fun d => buildArgList env.command d env.optargs) =
      (recordsRead r.log).map (fun d => buildArgList env.command d env.optargs)
  calls : checkArgs env = SUCCESS →
    callStatuses r.log =
      SUCCESS :: initializeStatus env :: (createCalls r.log).map CreateCall.status
  last : r.fault = none → (callStatuses r.log).getLast? = some r.status

/-! ## Example environments -/

/-- A process id that no unreaped child has: one more than the largest in the table. -/
def nextPid (k : List Child) : Int := (k.map Child.pid).foldr max 100 + 1

/-- A pool of two slots and three records; every launch succeeds. The first `wait`
returns the child launched last, the later ones the child launched first among the
unreaped ones. The first reaped child exited with code 5, the second was killed by
signal 9, the third exited with code 0. -/
def demoEnv : Env :=
  { optStatus := SUCCESS
    dataSetFile := ['d', 'a', 't', 'a']
    command := ['/', 'b', 'i', 'n', '/', 'e', 'c', 'h', 'o']
    numInstancesArg := ['2']
    numInstances := 2
    optargs := ['-', 'n']
    statDataSetFile := true
    statCommand := true
    malloc := true
    fopen := true
    records := [['a', '\n'], ['b', ' ', ' ', 'c', '\n'], ['d', '\n']]
    launch := fun n k =>
      { outFile := some ['o', Char.ofNat (48 + n)], errFile := some ['e', Char.ofNat (48 + n)],
        fork := some (nextPid k) }
    wait := fun n k =>
      match (if n = 0 then k.getLast? else k.head?) with
      | some c => (c.pid, if n = 0 then 0x0500 else if n = 1 then 9 else 0)
      | none => (-1, 0) }

/-- A pool of two slots and two records where `fork` fails in the first call of
`createChild`. -/
def failEnv : Env :=
  { demoEnv with
    records := [['a', '\n'], ['b', '\n']]
    launch := fun n k =>
      { outFile := some ['o', Char.ofNat (48 + n)], errFile := some ['e', Char.ofNat (48 + n)],
        fork := if n = 0 then none else some (nextPid k) } }

/-- A run the program accepts whose record and optional arguments do not fit
`switches`: the data set file holds one line of 198 characters and its newline, which
`fgets` leaves whole in `dataSubset` (199 characters), and the `-o` argument has
`OPTARGS_LEN` characters, the longest that `checkArgs` lets through. Everything else is
as in `demoEnv`. No child exists before the first call of `createChild`, so the only
`fgets` result that matters is the first. -/
def overflowEnv : Env :=
  { demoEnv with
    records := [List.replicate 198 'x' ++ ['\n']]
    optargs := List.replicate 200 'y' }

/-- The sentence "a launch failure does not stop the controller loop" for one
environment: `main` reads every record and calls `createChild` once for each. -/
def ConsumesEveryRecord (env : Env) : Prop :=
  recordsRead (main env).log = env.records ∧
  (createCalls (main env).log).length = env.records.length

/-! # Theorems -/

theorem WTERMSIG_eq (s : Nat) : WTERMSIG s = s % 128 := by
  unfold WTERMSIG
  exact Nat.and_pow_two_sub_one_eq_mod s 7

theorem WEXITSTATUS_eq (s : Nat) : WEXITSTATUS s = s / 256 % 256 := by
  unfold WEXITSTATUS
  apply Nat.eq_of_testBit_eq
  intro i
  have h1 : (0xff00 : Nat) = (2 ^ 8 - 1) <<< 8 := by decide
  have h2 : (256 : Nat) = 2 ^ 8 := by decide
  rw [h1, h2, Nat.testBit_shiftRight, Nat.testBit_and, Nat.testBit_shiftLeft,
    Nat.testBit_mod_two_pow, ← Nat.shiftRight_eq_div_pow, Nat.testBit_shiftRight,
    Nat.testBit_two_pow_sub_one]
  simp [Bool.and_comm]

theorem WIFSIGNALED_eq (s : Nat) :
    WIFSIGNALED s = decide (1 ≤ s % 128 ∧ s % 128 ≤ 126) := by
  unfold WIFSIGNALED
  have h : s &&& 0x7f = s % 128 := Nat.and_pow_two_sub_one_eq_mod s 7
  rw [h]
  have hlt : s % 128 < 128 := Nat.mod_lt _ (by decide)
  generalize s % 128 = t at hlt
  interval_cases t <;> decide

theorem specDelim_eq_isDelim : (fun c : Char => decide (c = ' ' ∨ c = '\n')) = isDelim := by
  funext c
  by_cases h1 : c = ' ' <;> by_cases h2 : c = '\n' <;> simp [isDelim, h1, h2]

theorem specTokens_eq (s : CStr) :
    specTokens s = (s.splitOnP isDelim).filter (fun t => t ≠ []) := by
  unfold specTokens
  rw [specDelim_eq_isDelim]

theorem specTokens_nil : specTokens [] = [] := by
  rw [specTokens_eq]; simp [List.splitOnP_nil]

theorem specTokens_cons_delim (c : Char) (s : CStr) (h : isDelim c = true) :
    specTokens (c :: s) = specTokens s := by
  rw [specTokens_eq, specTokens_eq, List.splitOnP_cons]
  simp [h]

theorem splitOnP_run (p : Char → Bool) (s : CStr) :
    s.splitOnP p = s.takeWhile (fun x => !p x) ::
      (match s.dropWhile (fun x => !p x) with
       | [] => []
       | _ :: r => r.splitOnP p) := by
  induction s with
  | nil => simp [List.splitOnP_nil]
  | cons x xs ih =>
    rw [List.splitOnP_cons]
    by_cases hx : p x = true
    · simp [hx]
    · simp only [hx]
      rw [ih]
      simp [hx]

theorem specTokens_cons_nondelim (c : Char) (s : CStr) (h : isDelim c = false) :
    specTokens (c :: s) = (c :: s.takeWhile (fun x => !isDelim x)) ::
      specTokens ((s.dropWhile (fun x => !isDelim x)).drop 1) := by
  rw [specTokens_eq, specTokens_eq, splitOnP_run isDelim (c :: s)]
  simp only [List.takeWhile_cons, List.dropWhile_cons, h, Bool.not_false, if_true]
  cases hd : s.dropWhile (fun x => !isDelim x) with
  | nil => simp [List.splitOnP_nil]
  | cons d r => simp

theorem strtok_spec (s : CStr) :
    match strtok s with
    | none => specTokens s = []
    | some (token, rest) => specTokens s = token :: specTokens rest ∧ rest.length < s.length := by
  induction s with
  | nil => simp [strtok, specTokens_nil]
  | cons x xs ih =>
    by_cases hx : isDelim x = true
    · have h1 : strtok (x :: xs) = strtok xs := by simp [strtok, hx]
      rw [h1, specTokens_cons_delim x xs hx]
      cases hs : strtok xs with
      | none => rw [hs] at ih; exact ih
      | some tr =>
        rw [hs] at ih
        obtain ⟨t, r⟩ := tr
        exact ⟨ih.1, Nat.lt_succ_of_lt ih.2⟩
    · have hx' : isDelim x = false := by simpa using hx
      have h1 : strtok (x :: xs) = some (x :: xs.takeWhile (fun c => !isDelim c),
          (xs.dropWhile (fun c => !isDelim c)).drop 1) := by
        simp [strtok, hx']
      rw [h1]
      refine ⟨specTokens_cons_nondelim x xs hx', ?_⟩
      have := (List.dropWhile_suffix (l := xs) (fun c => !isDelim c)).length_le
      simp only [List.length_drop, List.length_cons]
      omega

theorem makeArgListLoop_spec (fuel : Nat) (s : CStr) (args : List (Option CStr))
    (hfuel : s.length ≤ fuel) (hargs : args.length + (specTokens s).length < 100) :
    makeArgListLoop fuel (strtok s) args =
      Except.ok (args ++ (specTokens s).map some ++ [none]) := by
  induction fuel generalizing s args with
  | zero =>
    have hs : s = [] := List.length_eq_zero.mp (Nat.le_zero.mp hfuel)
    subst hs
    have : args.length < 100 := by omega
    simp [strtok, makeArgListLoop, specTokens_nil, this]
  | succ n ih =>
    have hspec := strtok_spec s
    cases hs : strtok s with
    | none =>
      rw [hs] at hspec
      simp only at hspec
      rw [hspec] at hargs ⊢
      have : args.length < 100 := by simpa using hargs
      simp [makeArgListLoop, this]
    | some tr =>
      obtain ⟨t, r⟩ := tr
      rw [hs] at hspec
      simp only at hspec
      obtain ⟨htok, hlen⟩ := hspec
      rw [htok] at hargs ⊢
      simp only [List.length_cons] at hargs
      have h100 : args.length < 100 := by omega
      simp only [makeArgListLoop, h100, if_true]
      rw [ih r (args ++ [some t]) (by omega) (by simp; omega)]
      simp

theorem splitOnP_append_cons (p : Char → Bool) (d r : CStr) (c : Char) (hc : p c = true) :
    (d ++ c :: r).splitOnP p = d.splitOnP p ++ r.splitOnP p := by
  induction d with
  | nil => simp [List.splitOnP_cons, hc, List.splitOnP_nil]
  | cons x xs ih =>
    rw [List.cons_append, List.splitOnP_cons, List.splitOnP_cons, ih]
    by_cases hx : p x = true
    · simp [hx]
    · simp only [hx]
      cases hsp : xs.splitOnP p with
      | nil => exact absurd hsp (List.splitOnP_ne_nil p xs)
      | cons a as => simp

theorem specTokens_append_cons (d r : CStr) (c : Char) (hc : isDelim c = true) :
    specTokens (d ++ c :: r) = specTokens d ++ specTokens r := by
  rw [specTokens_eq, specTokens_eq, specTokens_eq, splitOnP_append_cons isDelim d r c hc,
    List.filter_append]

theorem specTokens_switches (dataSubset optargs : CStr) :
    specTokens (dataSubset ++ ' ' :: optargs ++ ['\n']) =
      specTokens dataSubset ++ specTokens optargs := by
  have h1 : dataSubset ++ ' ' :: optargs ++ ['\n'] = dataSubset ++ ' ' :: (optargs ++ '\n' :: []) := by
    simp
  rw [h1, specTokens_append_cons _ _ ' ' (by decide), specTokens_append_cons _ _ '\n' (by decide),
    specTokens_nil, List.append_nil]

theorem buildArgList_spec (command dataSubset optargs : CStr)
    (hbuf : dataSubset.length + 1 + optargs.length + 1 ≤ SWITCHES_LEN)
    (htok : (specTokens dataSubset).length + (specTokens optargs).length < 99) :
    buildArgList command dataSubset optargs =
      Except.ok (some command ::
        ((specTokens dataSubset).map some ++ (specTokens optargs).map some ++ [none])) := by
  have hlen : (dataSubset ++ ' ' :: optargs ++ ['\n']).length ≤ SWITCHES_LEN := by
    simp only [List.length_append, List.length_cons, List.length_nil]
    omega
  simp only [buildArgList, sprintfSwitches, hlen, if_true, makeArgList]
  rw [makeArgListLoop_spec _ _ _ (le_refl _)
    (by rw [specTokens_switches]; simp only [List.length_append, List.length_cons, List.length_nil]; omega)]
  rw [specTokens_switches]
  simp

theorem findSlot_fault (childpid : Int) (l : List info_st) (k : Int) (f : Fault)
    (h : findSlot childpid l k = Except.error f) :
    f = Fault.uninitRead ∨ f = Fault.outOfBounds := by
  induction l generalizing k with
  | nil => simp [findSlot] at h; exact Or.inr h.symm
  | cons s rest ih =>
    unfold findSlot at h
    cases hp : s.pid with
    | none => rw [hp] at h; simp at h; exact Or.inl h.symm
    | some p =>
      rw [hp] at h
      by_cases hpc : p = childpid
      · simp [hpc] at h
      · simp [hpc] at h
        exact ih _ h

theorem reapOne_cases (env : Env) (r : Run) (hf : r.fault = none) :
    (∃ f, (reapOne env r).fault = some f ∧ (reapOne env r).log = r.log ∧
      (reapOne env r).exit = r.exit ∧ (reapOne env r).status = r.status ∧
      (f = Fault.noChild ∨ f = Fault.uninitRead ∨ f = Fault.outOfBounds ∨ f = Fault.badFileName) ∧
      (r.kernel = [] ∨ (∃ g, findSlot (waited env r).1 r.pInfo 0 = Except.error g) ∨
        (∃ i, findSlot (waited env r).1 r.pInfo 0 = Except.ok i ∧
          ∀ slot, slotAt r.pInfo i = some slot → slot.outFile = none ∨ slot.errFile = none))) ∨
    (∃ i slot outFile errFile,
      r.kernel ≠ [] ∧
      findSlot (waited env r).1 r.pInfo 0 = Except.ok i ∧
      slotAt r.pInfo i = some slot ∧ slot.outFile = some outFile ∧ slot.errFile = some errFile ∧
      reapOne env r = afterReap env r i slot outFile errFile) := by
  cases hk : r.kernel with
  | nil =>
    left
    refine ⟨Fault.noChild, ?_, ?_, ?_, ?_, Or.inl rfl, Or.inl rfl⟩ <;> simp [reapOne, waitForChild, hk]
  | cons c cs =>
    cases hfind : findSlot (env.wait r.waits (c :: cs)).1 r.pInfo 0 with
    | error f =>
      left
      have hf' := findSlot_fault _ _ _ _ hfind
      refine ⟨f, ?_, ?_, ?_, ?_, ?_, Or.inr (Or.inl ⟨f, by simp [waited, hk, hfind]⟩)⟩
      · simp [reapOne, waitForChild, hk, getOutput, hfind]
      · simp [reapOne, waitForChild, hk, getOutput, hfind]
      · simp [reapOne, waitForChild, hk, getOutput, hfind]
      · simp [reapOne, waitForChild, hk, getOutput, hfind]
      · rcases hf' with h | h <;> simp [h]
    | ok i =>
      cases hslot : slotAt r.pInfo i with
      | none =>
        left
        refine ⟨Fault.outOfBounds, ?_, ?_, ?_, ?_, by simp,
          Or.inr (Or.inr ⟨i, by simp [waited, hk, hfind], by simp [hslot]⟩)⟩ <;>
          simp [reapOne, waitForChild, hk, getOutput, hfind, hslot]
      | some slot =>
        cases hout : slot.outFile with
        | none =>
          left
          refine ⟨Fault.badFileName, ?_, ?_, ?_, ?_, by simp,
            Or.inr (Or.inr ⟨i, by simp [waited, hk, hfind], by
              intro s hs; rw [hslot] at hs; rw [← Option.some.inj hs]; exact Or.inl hout⟩)⟩ <;>
            simp [reapOne, waitForChild, hk, getOutput, hfind, hslot, hout]
        | some outFile =>
          cases herr : slot.errFile with
          | none =>
            left
            refine ⟨Fault.badFileName, ?_, ?_, ?_, ?_, by simp,
              Or.inr (Or.inr ⟨i, by simp [waited, hk, hfind], by
                intro s hs; rw [hslot] at hs; rw [← Option.some.inj hs]; exact Or.inr herr⟩)⟩ <;>
              simp [reapOne, waitForChild, hk, getOutput, hfind, hslot, hout, herr]
          | some errFile =>
            right
            refine ⟨i, slot, outFile, errFile, by simp, ?_, hslot, hout, herr, ?_⟩
            · simp [waited, hk, hfind]
            · simp [reapOne, waitForChild, hk, getOutput, hfind, hslot, hout, herr, hf,
                afterReap, waited, reapCallOf]

theorem launchOne_cases (env : Env) (d : CStr) (reaped : Option ReapCall) (r : Run)
    (hf : r.fault = none) :
    (∃ f, (launchOne env d reaped r).fault = some f ∧ (launchOne env d reaped r).log = r.log ∧
      (launchOne env d reaped r).out = r.out ∧ (launchOne env d reaped r).outBuf = r.outBuf ∧
      (launchOne env d reaped r).err = r.err ∧ (launchOne env d reaped r).exit = r.exit ∧
      ((buildArgList env.command d env.optargs = Except.error f) ∨
       (f = Fault.outOfBounds ∧ slotAt r.pInfo r.infoIndex = none))) ∨
    (∃ pArgList slot,
      buildArgList env.command d env.optargs = Except.ok pArgList ∧
      slotAt r.pInfo r.infoIndex = some slot ∧
      ((∃ outFile errFile childpid,
          env.launch r.creations r.kernel =
            { outFile := some outFile, errFile := some errFile, fork := some childpid } ∧
          launchOne env d reaped r = afterLaunch r pArgList reaped outFile errFile childpid) ∨
       (∃ message,
          isBlockWrite message = false ∧
          ((env.launch r.creations r.kernel).outFile = none ∨
           (env.launch r.creations r.kernel).errFile = none ∨
           (env.launch r.creations r.kernel).fork = none) ∧
          launchOne env d reaped r = afterFailedLaunch r pArgList reaped slot
            (env.launch r.creations r.kernel).outFile (env.launch r.creations r.kernel).errFile
            message))) := by
  cases hb : buildArgList env.command d env.optargs with
  | error f =>
    left
    exact ⟨f, by simp [launchOne, hb], by simp [launchOne, hb], by simp [launchOne, hb],
      by simp [launchOne, hb], by simp [launchOne, hb], by simp [launchOne, hb], Or.inl rfl⟩
  | ok pArgList =>
    cases hslot : slotAt r.pInfo r.infoIndex with
    | none =>
      left
      refine ⟨Fault.outOfBounds, ?_, ?_, ?_, ?_, ?_, ?_, Or.inr ⟨rfl, rfl⟩⟩ <;>
        simp [launchOne, hb, createChild, hslot]
    | some slot =>
      right
      refine ⟨pArgList, slot, rfl, rfl, ?_⟩
      cases hl : env.launch r.creations r.kernel with
      | mk o e fk =>
        cases o with
        | none =>
          right
          exact ⟨Write.tempnamNull, rfl, by simp, by
            simp [launchOne, hb, createChild, hslot, hl, hf, afterFailedLaunch, createCallOf, SYS_ERROR, SUCCESS]⟩
        | some outFile =>
          cases e with
          | none =>
            right
            exact ⟨Write.tempnamNull, rfl, by simp, by
              simp [launchOne, hb, createChild, hslot, hl, hf, afterFailedLaunch, createCallOf, SYS_ERROR, SUCCESS]⟩
          | some errFile =>
            cases fk with
            | none =>
              right
              exact ⟨Write.forkFailed, rfl, by simp, by
                simp [launchOne, hb, createChild, hslot, hl, hf, afterFailedLaunch, createCallOf, SYS_ERROR, SUCCESS]⟩
            | some childpid =>
              left
              exact ⟨outFile, errFile, childpid, rfl, by
                simp [launchOne, hb, createChild, hslot, hl, hf, afterLaunch, createCallOf, SUCCESS]⟩
/-! ### The slot array -/

theorem slotAt_bounds {p : List info_st} {i : Int} {s : info_st} (h : slotAt p i = some s) :
    0 ≤ i ∧ i < p.length := by
  unfold slotAt at h
  by_cases hi : 0 ≤ i
  · simp only [hi, if_true] at h
    have := (List.getElem?_eq_some_iff.mp h).1
    exact ⟨hi, by omega⟩
  · simp [hi] at h

theorem slotAt_of_bounds (p : List info_st) (i : Int) (h0 : 0 ≤ i) (h1 : i < p.length) :
    ∃ s, slotAt p i = some s := by
  have hlt : i.toNat < p.length := by omega
  exact ⟨p[i.toNat], by simp [slotAt, h0, List.getElem?_eq_getElem hlt]⟩

theorem length_setSlot (p : List info_st) (i : Int) (v : info_st) :
    (setSlot p i v).length = p.length := by
  unfold setSlot
  split <;> simp

theorem slotAt_setSlot_self (p : List info_st) (i : Int) (v : info_st)
    (h0 : 0 ≤ i) (h1 : i < p.length) : slotAt (setSlot p i v) i = some v := by
  have hlt : i.toNat < p.length := by omega
  simp [slotAt, setSlot, h0, hlt]

theorem slotAt_setSlot_ne (p : List info_st) (i j : Int) (v : info_st) (h : j ≠ i) :
    slotAt (setSlot p i v) j = slotAt p j := by
  unfold slotAt setSlot
  by_cases hi : 0 ≤ i
  · by_cases hj : 0 ≤ j
    · have hne : i.toNat ≠ j.toNat := by omega
      simp [hi, hj, List.getElem?_set_ne hne]
    · simp [hj]
  · simp [hi]

theorem slotAt_setSlot (p : List info_st) (i j : Int) (v s : info_st)
    (h : slotAt (setSlot p i v) j = some s) :
    (j = i ∧ s = v) ∨ (j ≠ i ∧ slotAt p j = some s) := by
  by_cases hji : j = i
  · subst hji
    have hb := slotAt_bounds h
    rw [length_setSlot] at hb
    rw [slotAt_setSlot_self p j v hb.1 hb.2] at h
    exact Or.inl ⟨rfl, (Option.some.inj h).symm⟩
  · rw [slotAt_setSlot_ne p i j v hji] at h
    exact Or.inr ⟨hji, h⟩

theorem findSlot_ok (childpid : Int) (l : List info_st) (k : Int) (n : Nat)
    (hbelow : ∀ m, m < n → ∃ s q, l[m]? = some s ∧ s.pid = some q ∧ q ≠ childpid)
    (hat : ∃ s, l[n]? = some s ∧ s.pid = some childpid) :
    findSlot childpid l k = Except.ok (k + n) := by
  induction l generalizing k n with
  | nil => obtain ⟨s, hs, _⟩ := hat; simp at hs
  | cons x rest ih =>
    cases n with
    | zero =>
      obtain ⟨s, hs, hp⟩ := hat
      simp at hs
      subst hs
      simp [findSlot, hp]
    | succ n =>
      obtain ⟨s, q, hs, hq, hne⟩ := hbelow 0 (Nat.succ_pos n)
      simp at hs
      subst hs
      have := ih (k + 1) n (fun m hm => by simpa using hbelow (m + 1) (by omega))
        (by simpa using hat)
      simp [findSlot, hq, hne, this]
      omega

/-! ### The kernel's table -/

theorem mem_of_mem_reap {pid : Int} {k : List Child} {c : Child} (h : c ∈ reap pid k) : c ∈ k := by
  induction k with
  | nil => simp [reap] at h
  | cons x xs ih =>
    unfold reap at h
    split at h
    · exact List.mem_cons_of_mem _ h
    · rcases List.mem_cons.mp h with h | h
      · exact h ▸ List.mem_cons_self _ _
      · exact List.mem_cons_of_mem _ (ih h)

theorem mem_reap_of_ne {pid : Int} {k : List Child} {c : Child} (h : c ∈ k) (hne : c.pid ≠ pid) :
    c ∈ reap pid k := by
  induction k with
  | nil => simp at h
  | cons x xs ih =>
    unfold reap
    rcases List.mem_cons.mp h with h | h
    · subst h; simp [hne]
    · split
      · exact h
      · exact List.mem_cons_of_mem _ (ih h)

theorem reap_sublist (pid : Int) (k : List Child) : (reap pid k).Sublist k := by
  induction k with
  | nil => simp [reap]
  | cons x xs ih =>
    unfold reap
    split
    · exact List.sublist_cons_self _ _
    · exact ih.cons₂ _

theorem pid_ne_of_mem_reap {pid : Int} {k : List Child} {c : Child}
    (hnd : (k.map Child.pid).Nodup) (h : c ∈ reap pid k) : c.pid ≠ pid := by
  induction k with
  | nil => simp [reap] at h
  | cons x xs ih =>
    simp only [List.map_cons, List.nodup_cons] at hnd
    unfold reap at h
    split at h
    · rename_i hx
      intro hc
      exact hnd.1 (List.mem_map.mpr ⟨c, h, by rw [hc, hx]⟩)
    · rcases List.mem_cons.mp h with h | h
      · subst h; assumption
      · exact ih hnd.2 h

theorem length_reap {pid : Int} {k : List Child} (h : pid ∈ k.map Child.pid) :
    ((reap pid k).length : Int) = k.length - 1 := by
  induction k with
  | nil => simp at h
  | cons x xs ih =>
    unfold reap
    split
    · simp
    · rename_i hx
      have : pid ∈ xs.map Child.pid := by
        simp only [List.map_cons, List.mem_cons] at h
        rcases h with h | h
        · exact absurd h.symm hx
        · exact h
      have := ih this
      simp only [List.length_cons]
      push_cast
      omega

theorem find_pid {pid : Int} {k : List Child} (h : pid ∈ k.map Child.pid) :
    ∃ c, k.find? (fun x => x.pid = pid) = some c ∧ c ∈ k ∧ c.pid = pid := by
  cases hfind : k.find? (fun x => decide (x.pid = pid)) with
  | none =>
    obtain ⟨c, hc, hp⟩ := List.mem_map.mp h
    have := List.find?_eq_none.mp hfind c hc
    simp [hp] at this
  | some c =>
    have h1 := List.find?_some hfind
    have h2 := List.mem_of_find?_eq_some hfind
    exact ⟨c, rfl, h2, by simpa using h1⟩

/-! ### Reaping keeps the slot pool sound -/

theorem sound_findSlot {env : Env} {r : Run} (hs : Sound env r) {d : Child} (hd : d ∈ r.kernel) :
    findSlot d.pid r.pInfo 0 = Except.ok d.infoIndex := by
  have hslot := hs.slot d hd
  have hb := slotAt_bounds hslot
  have h := findSlot_ok d.pid r.pInfo 0 d.infoIndex.toNat ?_ ?_
  · rw [h]; congr 1; omega
  · intro m hm
    obtain ⟨s, p, hsl, hp⟩ := hs.below d hd m (by omega) (by omega)
    refine ⟨s, p, ?_, hp, ?_⟩
    · simpa [slotAt] using hsl
    · intro hpd
      have := hs.owner m s hsl d hd (by rw [hp, hpd])
      omega
  · refine ⟨{ pid := some d.pid, outFile := some d.outFile, errFile := some d.errFile }, ?_, rfl⟩
    simpa [slotAt, hb.1] using hslot

theorem sound_afterReap {env : Env} {r : Run} (hs : Sound env r) {d : Child}
    (hd : d ∈ r.kernel) (hpid : d.pid = (waited env r).1) (slot : info_st)
    (hslot : slotAt r.pInfo d.infoIndex = some slot) (outFile errFile : CStr) :
    Sound env (afterReap env r d.infoIndex slot outFile errFile) := by
  have hslot' := hs.slot d hd
  rw [hslot] at hslot'
  have hsl : slot = { pid := some d.pid, outFile := some d.outFile, errFile := some d.errFile } :=
    Option.some.inj hslot'
  have hb := slotAt_bounds hslot
  have hmem : (waited env r).1 ∈ r.kernel.map Child.pid := hpid ▸ List.mem_map_of_mem _ hd
  have hne : ∀ c ∈ reap (waited env r).1 r.kernel, c.infoIndex ≠ d.infoIndex := by
    intro c hc hidx
    have hc' := mem_of_mem_reap hc
    have h1 := hs.slot c hc'
    rw [hidx, hslot] at h1
    have h2 : slot.pid = some c.pid := by rw [Option.some.inj h1]
    rw [hsl] at h2
    have h3 : d.pid = c.pid := Option.some.inj h2
    exact pid_ne_of_mem_reap hs.pids hc (by rw [← h3, hpid])
  have hpidkeep : ∀ j s, slotAt (setSlot r.pInfo d.infoIndex
      { slot with outFile := none, errFile := none }) j = some s →
      ∃ s', slotAt r.pInfo j = some s' ∧ s'.pid = s.pid := by
    intro j s h
    rcases slotAt_setSlot _ _ _ _ _ h with ⟨hj, hv⟩ | ⟨_, h'⟩
    · exact ⟨slot, hj ▸ hslot, by rw [hv]⟩
    · exact ⟨s, h', rfl⟩
  refine ⟨?_, ?_, ?_, ?_, ?_, ?_, ?_, ?_⟩
  · simp only [Cpc.afterReap, length_setSlot]; exact hs.len
  · simp only [Cpc.afterReap]
    rw [length_reap hmem, hs.count]
  · simp only [Cpc.afterReap]
    have := hs.bound
    omega
  · intro c hc
    simp only [Cpc.afterReap] at hc ⊢
    rw [slotAt_setSlot_ne _ _ _ _ (hne c hc)]
    exact hs.slot c (mem_of_mem_reap hc)
  · simp only [Cpc.afterReap]
    exact hs.pids.sublist ((reap_sublist _ _).map _)
  · simp only [Cpc.afterReap]
    exact hs.slots.sublist ((reap_sublist _ _).map _)
  · intro c hc j h0 hj
    simp only [Cpc.afterReap] at hc ⊢
    obtain ⟨s, p, h1, h2⟩ := hs.below c (mem_of_mem_reap hc) j h0 hj
    by_cases hji : j = d.infoIndex
    · subst hji
      rw [slotAt_setSlot_self _ _ _ hb.1 hb.2]
      rw [hslot] at h1
      exact ⟨_, p, rfl, by rw [Option.some.inj h1]; exact h2⟩
    · rw [slotAt_setSlot_ne _ _ _ _ hji]
      exact ⟨s, p, h1, h2⟩
  · intro j s h c hc hp
    simp only [Cpc.afterReap] at h hc
    obtain ⟨s', h1, h2⟩ := hpidkeep j s h
    exact hs.owner j s' h1 c (mem_of_mem_reap hc) (by rw [h2]; exact hp)

/-- Under the guarantees of the operating system, a reap in a sound state does not
fault: the scan of `getOutput` stops at the slot of the child that `wait` returned. -/
theorem sound_reapOne {env : Env} {r : Run} (hw : WellBehaved env) (hs : Sound env r)
    (hf : r.fault = none) (hpos : 0 < r.processCount) :
    ∃ d, d ∈ r.kernel ∧ d.pid = (waited env r).1 ∧
      r.kernel.find? (fun k => k.pid = (waited env r).1) = some d ∧
      reapOne env r =
        Cpc.afterReap env r d.infoIndex
          { pid := some d.pid, outFile := some d.outFile, errFile := some d.errFile }
          d.outFile d.errFile ∧
      Sound env (Cpc.afterReap env r d.infoIndex
          { pid := some d.pid, outFile := some d.outFile, errFile := some d.errFile }
          d.outFile d.errFile) := by
  have hne : r.kernel ≠ [] := by
    intro h
    have := hs.count
    rw [h] at this
    simp at this
    omega
  have hmem : (waited env r).1 ∈ r.kernel.map Child.pid := hw.1 r.waits r.kernel hne
  obtain ⟨d, hfind, hd, hpid⟩ := find_pid hmem
  have hscan := sound_findSlot hs hd
  have hslot := hs.slot d hd
  refine ⟨d, hd, hpid, hfind, ?_, sound_afterReap hs hd hpid _ hslot _ _⟩
  rcases reapOne_cases env r hf with ⟨f, _, _, _, _, _, hcause⟩ | ⟨i, slot, o, e, _, h1, h2, h3, h4, h5⟩
  · exfalso
    rw [← hpid, hscan] at hcause
    rcases hcause with h | ⟨g, h⟩ | ⟨i, h, hbad⟩
    · exact hne h
    · simp at h
    · have hi : i = d.infoIndex := (Except.ok.inj h).symm
      subst hi
      rcases hbad _ hslot with h | h <;> simp at h
  · have hw1 : (waited env r).1 = d.pid := hpid.symm
    rw [hw1, hscan] at h1
    have hi : i = d.infoIndex := (Except.ok.inj h1).symm
    subst hi
    rw [hslot] at h2
    have hsl := Option.some.inj h2
    subst hsl
    simp only at h3 h4
    rw [h5, Option.some.inj h3, Option.some.inj h4]

/-! ### Launching keeps the slot pool sound -/

theorem sound_relabel {env : Env} {r r' : Run} (hs : Sound env r) (h1 : r'.pInfo = r.pInfo)
    (h2 : r'.kernel = r.kernel) (h3 : r'.processCount = r.processCount) : Sound env r' := by
  refine ⟨?_, ?_, ?_, ?_, ?_, ?_, ?_, ?_⟩
  · rw [h1]; exact hs.len
  · rw [h2, h3]; exact hs.count
  · rw [h3]; exact hs.bound
  · rw [h1, h2]; exact hs.slot
  · rw [h2]; exact hs.pids
  · rw [h2]; exact hs.slots
  · rw [h1, h2]; exact hs.below
  · rw [h1, h2]; exact hs.owner

theorem ready_ofNotFull {env : Env} {r r' : Run} (hs : Sound env r) (hh : AtHead r)
    (hne : r.processCount ≠ env.numInstances) (h1 : r'.pInfo = r.pInfo)
    (h2 : r'.kernel = r.kernel) (h3 : r'.processCount = r.processCount)
    (h4 : r'.infoIndex = r.processCount) : Ready env r' := by
  have hb := hs.bound
  have hc := hs.count
  have h0 : 0 ≤ r.processCount := by rw [hc]; exact Int.natCast_nonneg _
  refine ⟨?_, ?_, ?_, ?_, ?_⟩
  · rw [h4]; exact h0
  · rw [h4, h3]; omega
  · rw [h3]; omega
  · intro j
    have := hh.occ j
    unfold Occupied at this ⊢
    rw [h2, h3, h4, this]
    constructor
    · rintro ⟨a, b⟩; exact ⟨a, by omega, by omega⟩
    · rintro ⟨a, b, c⟩; exact ⟨a, by omega⟩
  · intro j s _ hsl hp
    rw [h1] at hsl
    have := hh.written j s hsl hp
    unfold Occupied at this ⊢
    rw [h2]; exact this

theorem ready_ofReap {env : Env} {r : Run} (hs : Sound env r) (hh : AtHead r)
    (hfull : r.processCount = env.numInstances) {d : Child} (hd : d ∈ r.kernel)
    (hpid : d.pid = (waited env r).1) (slot : info_st) (outFile errFile : CStr) :
    Ready env (afterReap env r d.infoIndex slot outFile errFile) := by
  have hslot := hs.slot d hd
  have hb := slotAt_bounds hslot
  have hlen := hs.len
  have hkeep : ∀ c ∈ r.kernel, c.infoIndex ≠ d.infoIndex → c ∈ reap (waited env r).1 r.kernel := by
    intro c hc hne
    apply mem_reap_of_ne hc
    intro hcp
    have := hs.owner c.infoIndex _ (hs.slot c hc) d hd (by simp [hcp, hpid])
    exact hne this.symm
  have hgone : ∀ c ∈ reap (waited env r).1 r.kernel, c.infoIndex ≠ d.infoIndex := by
    intro c hc hidx
    have h1 := hs.slot c (mem_of_mem_reap hc)
    rw [hidx, hslot] at h1
    have h3 : d.pid = c.pid := by
      have := Option.some.inj h1
      simpa using congrArg info_st.pid this
    exact pid_ne_of_mem_reap hs.pids hc (by rw [← h3, hpid])
  refine ⟨?_, ?_, ?_, ?_, ?_⟩
  · simp only [afterReap]; exact hb.1
  · simp only [afterReap]; omega
  · simp only [afterReap]; omega
  · intro j
    simp only [Occupied, afterReap]
    constructor
    · rintro ⟨c, hc, hj⟩
      have := (hh.occ j).mp ⟨c, mem_of_mem_reap hc, hj⟩
      exact ⟨this.1, by omega, hj ▸ hgone c hc⟩
    · rintro ⟨h0, h1, h2⟩
      obtain ⟨c, hc, hj⟩ := (hh.occ j).mpr ⟨h0, by omega⟩
      exact ⟨c, hkeep c hc (hj ▸ h2), hj⟩
  · intro j s hj hsl hp
    simp only [afterReap] at hj hsl
    rw [slotAt_setSlot_ne _ _ _ _ hj] at hsl
    obtain ⟨c, hc, hcj⟩ := hh.written j s hsl hp
    exact ⟨c, hkeep c hc (hcj ▸ hj), hcj⟩

theorem ready_slot {env : Env} {r : Run} (hs : Sound env r) (hr : Ready env r) :
    ∃ slot, slotAt r.pInfo r.infoIndex = some slot := by
  apply slotAt_of_bounds _ _ hr.lo
  have := hs.len
  have := hr.hi
  have := hr.room
  omega

theorem ready_free {env : Env} {r : Run} (hr : Ready env r) :
    ∀ c ∈ r.kernel, c.infoIndex ≠ r.infoIndex := by
  intro c hc
  exact ((hr.occ c.infoIndex).mp ⟨c, hc, rfl⟩).2.2

theorem sound_afterLaunch {env : Env} {r : Run} (hs : Sound env r) (hr : Ready env r)
    (pArgList : List (Option CStr)) (reaped : Option ReapCall) (outFile errFile : CStr)
    (childpid : Int) (hfresh : childpid ∉ r.kernel.map Child.pid) :
    Sound env (afterLaunch r pArgList reaped outFile errFile childpid) ∧
    AtHead (afterLaunch r pArgList reaped outFile errFile childpid) := by
  obtain ⟨slot, hslot⟩ := ready_slot hs hr
  have hb := slotAt_bounds hslot
  have hfree := ready_free hr
  have hfresh' : ∀ c ∈ r.kernel, c.pid ≠ childpid := by
    intro c hc h
    exact hfresh (List.mem_map.mpr ⟨c, hc, h⟩)
  refine ⟨⟨?_, ?_, ?_, ?_, ?_, ?_, ?_, ?_⟩, ⟨?_, ?_⟩⟩
  · simp only [Cpc.afterLaunch, length_setSlot]; exact hs.len
  · simp only [Cpc.afterLaunch, List.length_append, List.length_cons, List.length_nil]
    rw [hs.count]; push_cast; ring
  · simp only [Cpc.afterLaunch]
    have := hr.room
    omega
  · intro c hc
    simp only [Cpc.afterLaunch, List.mem_append, List.mem_singleton] at hc ⊢
    rcases hc with hc | hc
    · rw [slotAt_setSlot_ne _ _ _ _ (hfree c hc)]
      exact hs.slot c hc
    · subst hc
      exact slotAt_setSlot_self _ _ _ hb.1 hb.2
  · simp only [Cpc.afterLaunch, List.map_append, List.map_cons, List.map_nil]
    rw [List.nodup_append]
    refine ⟨hs.pids, List.nodup_singleton _, ?_⟩
    intro a ha hb
    simp only [List.mem_singleton] at hb
    exact hfresh (hb ▸ ha)
  · simp only [Cpc.afterLaunch, List.map_append, List.map_cons, List.map_nil]
    rw [List.nodup_append]
    refine ⟨hs.slots, List.nodup_singleton _, ?_⟩
    intro a ha hb
    simp only [List.mem_singleton] at hb
    obtain ⟨c, hc, hci⟩ := List.mem_map.mp ha
    exact hfree c hc (hci.trans hb)
  · intro c hc j h0 hj
    simp only [Cpc.afterLaunch, List.mem_append, List.mem_singleton] at hc ⊢
    by_cases hji : j = r.infoIndex
    · subst hji
      rw [slotAt_setSlot_self _ _ _ hb.1 hb.2]
      exact ⟨_, childpid, rfl, rfl⟩
    · rw [slotAt_setSlot_ne _ _ _ _ hji]
      rcases hc with hc | hc
      · exact hs.below c hc j h0 hj
      · subst hc
        simp only at hj
        obtain ⟨c', hc', hcj⟩ := (hr.occ j).mpr ⟨h0, by have := hr.hi; omega, hji⟩
        exact ⟨_, c'.pid, hcj ▸ hs.slot c' hc', rfl⟩
  · intro j s hsl c hc hp
    simp only [Cpc.afterLaunch, List.mem_append, List.mem_singleton] at hsl hc
    rcases slotAt_setSlot _ _ _ _ _ hsl with ⟨hj, hv⟩ | ⟨hj, hsl'⟩
    · subst hv
      simp only [Option.some.injEq] at hp
      rcases hc with hc | hc
      · exact absurd hp.symm (hfresh' c hc)
      · subst hc; exact hj.symm
    · rcases hc with hc | hc
      · exact hs.owner j s hsl' c hc hp
      · subst hc
        simp only at hp
        obtain ⟨c', hc', hcj⟩ := hr.written j s hj hsl' (by simp [hp])
        have h1 := hs.slot c' hc'
        rw [hcj, hsl'] at h1
        have h2 := congrArg info_st.pid (Option.some.inj h1)
        simp only [hp, Option.some.injEq] at h2
        exact absurd h2.symm (hfresh' c' hc')
  · intro j
    simp only [Occupied, Cpc.afterLaunch, List.mem_append, List.mem_singleton]
    have hocc := hr.occ j
    unfold Occupied at hocc
    constructor
    · rintro ⟨c, hc | hc, hj⟩
      · have := hocc.mp ⟨c, hc, hj⟩
        exact ⟨this.1, this.2.1⟩
      · subst hc
        simp only at hj
        subst hj
        exact ⟨hr.lo, hr.hi⟩
    · rintro ⟨h0, h1⟩
      by_cases hji : j = r.infoIndex
      · exact ⟨_, Or.inr rfl, hji.symm⟩
      · obtain ⟨c, hc, hj⟩ := hocc.mpr ⟨h0, h1, hji⟩
        exact ⟨c, Or.inl hc, hj⟩
  · intro j s hsl hp
    simp only [Occupied, Cpc.afterLaunch, List.mem_append, List.mem_singleton] at hsl ⊢
    by_cases hji : j = r.infoIndex
    · exact ⟨_, Or.inr rfl, hji.symm⟩
    · rw [slotAt_setSlot_ne _ _ _ _ hji] at hsl
      obtain ⟨c, hc, hj⟩ := hr.written j s hji hsl hp
      exact ⟨c, Or.inl hc, hj⟩

theorem sound_afterFailedLaunch {env : Env} {r : Run} (hs : Sound env r) (hr : Ready env r)
    (pArgList : List (Option CStr)) (reaped : Option ReapCall) (slot : info_st)
    (hslot : slotAt r.pInfo r.infoIndex = some slot) (outFile errFile : Option CStr)
    (message : Write) :
    Sound env (afterFailedLaunch r pArgList reaped slot outFile errFile message) := by
  have hb := slotAt_bounds hslot
  have hfree := ready_free hr
  have hpidkeep : ∀ j s, slotAt (setSlot r.pInfo r.infoIndex
      { slot with outFile := outFile, errFile := errFile }) j = some s →
      ∃ s', slotAt r.pInfo j = some s' ∧ s'.pid = s.pid := by
    intro j s h
    rcases slotAt_setSlot _ _ _ _ _ h with ⟨hj, hv⟩ | ⟨_, h'⟩
    · exact ⟨slot, hj ▸ hslot, by rw [hv]⟩
    · exact ⟨s, h', rfl⟩
  refine ⟨?_, ?_, ?_, ?_, ?_, ?_, ?_, ?_⟩
  · simp only [Cpc.afterFailedLaunch, length_setSlot]; exact hs.len
  · exact hs.count
  · exact hs.bound
  · intro c hc
    simp only [Cpc.afterFailedLaunch] at hc ⊢
    rw [slotAt_setSlot_ne _ _ _ _ (hfree c hc)]
    exact hs.slot c hc
  · exact hs.pids
  · exact hs.slots
  · intro c hc j h0 hj
    simp only [Cpc.afterFailedLaunch] at hc ⊢
    obtain ⟨s, p, h1, h2⟩ := hs.below c hc j h0 hj
    by_cases hji : j = r.infoIndex
    · subst hji
      rw [slotAt_setSlot_self _ _ _ hb.1 hb.2]
      rw [hslot] at h1
      exact ⟨_, p, rfl, by rw [Option.some.inj h1]; exact h2⟩
    · rw [slotAt_setSlot_ne _ _ _ _ hji]
      exact ⟨s, p, h1, h2⟩
  · intro j s h c hc hp
    simp only [Cpc.afterFailedLaunch] at h hc
    obtain ⟨s', h1, h2⟩ := hpidkeep j s h
    exact hs.owner j s' h1 c hc (by rw [h2]; exact hp)

/-! ### Framed blocks of an output stream -/

theorem blocksOf_cons_other (w : Write) (rest : List Write) (hw : isBlockWrite w = false) :
    blocksOf (w :: rest) = blocksOf rest := by
  rw [blocksOf.eq_3]
  · simp [hw]
  · intro p f q rest' h
    subst h
    simp [isBlockWrite] at hw

theorem blocksOf_append (a b : List Write) (x : List (Int × CStr)) (h : blocksOf a = some x) :
    blocksOf (a ++ b) = (blocksOf b).map (fun y => x ++ y) := by
  induction a using blocksOf.induct generalizing x with
  | case1 =>
    simp only [blocksOf, Option.some.injEq] at h
    subst h
    simp
  | case2 f q rest ih =>
    simp only [blocksOf, if_true] at h
    cases hr : blocksOf rest with
    | none => rw [hr] at h; simp at h
    | some y =>
      rw [hr] at h
      simp only [Option.map_some', Option.some.injEq] at h
      subst h
      have ih' := ih y hr
      simp only [List.cons_append, blocksOf, if_true]
      change Option.map _ (blocksOf (rest ++ b)) = _
      rw [ih', Option.map_map]
      rfl
  | case3 p f q rest hpq =>
    simp [blocksOf, hpq] at h
  | case4 w rest hpat hw =>
    rw [blocksOf.eq_3 _ _ hpat] at h
    simp [hw] at h
  | case5 w rest hpat hw ih =>
    have hw' : isBlockWrite w = false := by simpa using hw
    rw [blocksOf_cons_other w rest hw'] at h
    rw [List.cons_append, blocksOf_cons_other w _ hw']
    exact ih x h

theorem blocksOf_append_others (a b : List Write) (x : List (Int × CStr))
    (h : blocksOf a = some x) (hb : ∀ w ∈ b, isBlockWrite w = false) :
    blocksOf (a ++ b) = some x := by
  rw [blocksOf_append a b x h]
  have : blocksOf b = some [] := by
    induction b with
    | nil => rfl
    | cons w rest ih =>
      rw [blocksOf_cons_other w rest (hb w (List.mem_cons_self _ _))]
      exact ih (fun w' hw' => hb w' (List.mem_cons_of_mem _ hw'))
  simp [this]

theorem blocksOf_append_block (a b : List Write) (x : List (Int × CStr))
    (h : blocksOf a = some x) (hb : ∀ w ∈ b, isBlockWrite w = false) (p : Int) (f : CStr) :
    blocksOf (a ++ b ++ [Write.startBanner p, Write.cat f, Write.endBanner p]) =
      some (x ++ [(p, f)]) := by
  rw [blocksOf_append (a ++ b) _ x (blocksOf_append_others a b x h hb)]
  simp [blocksOf]

theorem getChildStatus_writes (s : Nat) (pid : Int) :
    ∀ w ∈ (getChildStatus s pid).2, isBlockWrite w = false := by
  intro w hw
  unfold getChildStatus at hw
  split at hw
  · simp at hw; rcases hw with h | h <;> subst h <;> rfl
  · split at hw
    · simp at hw; subst hw; rfl
    · simp at hw; subst hw; rfl

/-! ### The invariant `Good` along a run -/

theorem good_reapOne {env : Env} {r : Run} (hw : WellBehaved env) (hg : Good env r)
    (hf : r.fault = none) (hpos : 0 < r.processCount) :
    Good env (reapOne env r) ∧ (reapOne env r).fault = none ∧
    (reapOne env r).status = r.status ∧ Sound env (reapOne env r) ∧
    ∃ d, d ∈ r.kernel ∧ d.pid = (waited env r).1 ∧
      r.kernel.find? (fun k => k.pid = (waited env r).1) = some d ∧
      reapOne env r =
        afterReap env r d.infoIndex
          { pid := some d.pid, outFile := some d.outFile, errFile := some d.errFile }
          d.outFile d.errFile := by
  have hs := hg.sound hf (Or.inr hpos)
  obtain ⟨d, hd, hpid, hfind, heq, hs'⟩ := sound_reapOne hw hs hf hpos
  have hb := slotAt_bounds (hs.slot d hd)
  refine ⟨?_, by rw [heq]; exact hf, by rw [heq]; rfl, by rw [heq]; exact hs', d, hd, hpid, hfind, heq⟩
  rw [heq]
  refine ⟨?_, ?_, ?_, ?_, ?_, fun _ _ => hs'⟩
  · intro call hc
    simp only [afterReap, reapCalls, List.filterMap_append, List.filterMap_cons,
      Event.reapCall, List.filterMap_nil, List.mem_append, List.mem_singleton] at hc
    rcases hc with hc | hc
    · exact hg.reaps call hc
    · subst hc
      refine ⟨d, hfind, hpid, rfl, hb.1, ?_⟩
      have := hs.len
      simp only [reapCallOf]
      omega
  · intro e he
    simp only [afterReap, createCalls, List.filterMap_append, List.filterMap_cons,
      Event.createCall, List.filterMap_nil, List.append_nil] at he
    exact hg.creates e he
  · obtain ⟨children, h1, h2, h3⟩ := hg.framed
    refine ⟨children ++ [d], ?_, ?_, ?_⟩
    · simp only [afterReap, reapCalls, List.filterMap_append, List.filterMap_cons,
        Event.reapCall, List.filterMap_nil, List.map_append, List.map_cons, List.map_nil]
      rw [← h1]
      simp [reapCalls, reapCallOf, hfind]
    · simp only [Run.stdout, afterReap, List.append_nil]
      rw [← List.append_assoc r.out r.outBuf]
      have := blocksOf_append_block (r.out ++ r.outBuf) _ _ h2
        (getChildStatus_writes (waited env r).2 (waited env r).1) (waited env r).1 d.outFile
      rw [this]
      simp [outBlocks, hpid]
    · simp only [afterReap]
      have := blocksOf_append_block r.err [] _ h3 (by simp) (waited env r).1 d.errFile
      simp only [List.append_nil] at this
      rw [this]
      simp [errBlocks, hpid]
  · intro f hfault
    simp only [afterReap] at hfault
    rw [hf] at hfault
    simp at hfault
  · intro x hx
    simp only [afterReap, recordsRead, List.filterMap_append, List.filterMap_cons,
      Event.record, List.filterMap_nil, List.append_nil] at hx
    exact hg.read x hx

theorem buildArgList_fault_kinds (command d optargs : CStr) (f : Fault)
    (h : buildArgList command d optargs = Except.error f) :
    f = Fault.switchesOverflow ∨ f = Fault.argListOverflow ∨ f = Fault.fuel := by
  unfold buildArgList sprintfSwitches at h
  split at h
  · rename_i f' heq
    split at heq
    · simp at heq
    · simp at heq
      simp at h
      exact Or.inl (h ▸ heq.symm)
  · rename_i sw heq
    unfold makeArgList at h
    generalize strtok sw = t at h
    generalize sw.length = n at h
    generalize [some command] = args at h
    induction n generalizing t args with
    | zero =>
      cases t with
      | none =>
        simp only [makeArgListLoop] at h
        split at h <;> simp at h
        exact Or.inr (Or.inl h.symm)
      | some tr => simp [makeArgListLoop] at h; exact Or.inr (Or.inr h.symm)
    | succ n ih =>
      cases t with
      | none =>
        simp only [makeArgListLoop] at h
        split at h <;> simp at h
        exact Or.inr (Or.inl h.symm)
      | some tr =>
        obtain ⟨tok, rest⟩ := tr
        simp only [makeArgListLoop] at h
        split at h
        · exact ih _ _ h
        · simp at h; exact Or.inr (Or.inl h.symm)

theorem makeArgListLoop_fuel (fuel : Nat) (s : CStr) (args : List (Option CStr))
    (hfuel : s.length ≤ fuel) : makeArgListLoop fuel (strtok s) args ≠ Except.error Fault.fuel := by
  induction fuel generalizing s args with
  | zero =>
    have hs : s = [] := List.length_eq_zero.mp (Nat.le_zero.mp hfuel)
    subst hs
    simp only [strtok, List.dropWhile_nil, makeArgListLoop]
    split <;> simp
  | succ n ih =>
    have hspec := strtok_spec s
    cases hs : strtok s with
    | none =>
      simp only [makeArgListLoop]
      split <;> simp
    | some tr =>
      obtain ⟨t, r⟩ := tr
      rw [hs] at hspec
      simp only at hspec
      simp only [makeArgListLoop]
      split
      · exact ih r _ (by omega)
      · simp

/-- The only faults of `buildArgList` are the two buffer overflows; the iteration bound
of the token loop is never reached. -/
theorem buildArgList_fault (command d optargs : CStr) (f : Fault)
    (h : buildArgList command d optargs = Except.error f) :
    f = Fault.switchesOverflow ∨ f = Fault.argListOverflow := by
  rcases buildArgList_fault_kinds command d optargs f h with h1 | h1 | h1
  · exact Or.inl h1
  · exact Or.inr h1
  · exfalso
    subst h1
    unfold buildArgList at h
    split at h
    · rename_i f' heq
      unfold sprintfSwitches at heq
      split at heq
      · simp at heq
      · simp at heq
        simp at h
        rw [← heq] at h
        simp at h
    · rename_i sw heq
      exact makeArgListLoop_fuel _ sw _ (le_refl _) h

/-- The condition on the `reaped` argument of `launchOne`: it tells which branch of
lines 79-87 set `infoIndex`. -/
theorem free_of_ready {env : Env} {r : Run} (hs : Sound env r) (hr : Ready env r)
    (pArgList : List (Option CStr)) (reaped : Option ReapCall) (status : Nat)
    (hreaped : match reaped with
      | none => r.processCount < env.numInstances ∧ r.infoIndex = r.processCount ∧
          ∀ j, Occupied r j ↔ (0 ≤ j ∧ j < r.processCount)
      | some call => r.processCount = env.numInstances - 1 ∧ call.infoIndex = r.infoIndex ∧
          ∃ c, call.child = some c ∧ c.infoIndex = r.infoIndex) :
    (createCallOf r pArgList reaped status).Free env.numInstances := by
  refine ⟨hr.lo, ?_, ready_free hr, hs.slots, hs.count.symm, ?_⟩
  · have := hr.hi
    have := hr.room
    simp only [createCallOf]
    omega
  · cases reaped with
    | none => exact hreaped
    | some call => exact hreaped

theorem good_launchOne {env : Env} {r : Run} (hw : WellBehaved env) (hg : Good env r)
    (hf : r.fault = none) (hs : Sound env r) (hr : Ready env r) (d : CStr)
    (hd : d ∈ recordsRead r.log) (reaped : Option ReapCall)
    (hreaped : match reaped with
      | none => r.processCount < env.numInstances ∧ r.infoIndex = r.processCount ∧
          ∀ j, Occupied r j ↔ (0 ≤ j ∧ j < r.processCount)
      | some call => r.processCount = env.numInstances - 1 ∧ call.infoIndex = r.infoIndex ∧
          ∃ c, call.child = some c ∧ c.infoIndex = r.infoIndex) :
    Good env (launchOne env d reaped r) ∧
    ((launchOne env d reaped r).fault = none → (launchOne env d reaped r).status = SUCCESS →
      AtHead (launchOne env d reaped r)) := by
  obtain ⟨slot0, hslot0⟩ := ready_slot hs hr
  rcases launchOne_cases env d reaped r hf with
    ⟨f, hfault, hlog, hout, hbuf, herr, _, hcause⟩ |
    ⟨pArgList, slot, hb, hslot, ⟨o, e, pid, hl, heq⟩ | ⟨msg, hmsg, _, heq⟩⟩
  · refine ⟨⟨?_, ?_, ?_, ?_, ?_, ?_⟩, ?_⟩
    · rw [hlog]; exact hg.reaps
    · rw [hlog]; exact hg.creates
    · obtain ⟨children, h1, h2, h3⟩ := hg.framed
      exact ⟨children, by rw [hlog]; exact h1, by simp only [Run.stdout, hout, hbuf]; exact h2,
        by rw [herr]; exact h3⟩
    · intro g hgf
      rw [hfault] at hgf
      have hgf := Option.some.inj hgf
      subst hgf
      rcases hcause with h | ⟨_, h⟩
      · exact Or.inr ⟨d, by rw [hlog]; exact hd, h⟩
      · rw [hslot0] at h; simp at h
    · rw [hlog]; exact hg.read
    · intro h; rw [hfault] at h; simp at h
    · intro h; rw [hfault] at h; simp at h
  · have hfresh : pid ∉ r.kernel.map Child.pid := by
      apply hw.2 r.creations r.kernel pid
      rw [hl]
    obtain ⟨hs', hh'⟩ := sound_afterLaunch hs hr pArgList reaped o e pid hfresh
    rw [heq]
    refine ⟨⟨?_, ?_, ?_, ?_, ?_, fun _ _ => hs'⟩, fun _ _ => hh'⟩
    · intro call hc
      simp only [afterLaunch, reapCalls, List.filterMap_append, List.filterMap_cons,
        Event.reapCall, List.filterMap_nil, List.append_nil] at hc
      exact hg.reaps call hc
    · intro c hc
      simp only [afterLaunch, createCalls, List.filterMap_append, List.filterMap_cons,
        Event.createCall, List.filterMap_nil, List.mem_append, List.mem_singleton] at hc
      rcases hc with hc | hc
      · exact hg.creates c hc
      · subst hc
        exact free_of_ready hs hr pArgList reaped SUCCESS hreaped
    · obtain ⟨children, h1, h2, h3⟩ := hg.framed
      refine ⟨children, ?_, ?_, ?_⟩
      · simpa only [afterLaunch, reapCalls, List.filterMap_append, List.filterMap_cons,
          Event.reapCall, List.filterMap_nil, List.append_nil] using h1
      · simp only [Run.stdout, afterLaunch]
        rw [← List.append_assoc]
        apply blocksOf_append_others _ _ _ h2
        intro w hw'
        simp at hw'
        rcases hw' with h | h <;> subst h <;> rfl
      · exact h3
    · intro g hgf
      simp only [afterLaunch] at hgf
      rw [hf] at hgf; simp at hgf
    · intro x hx
      simp only [afterLaunch, recordsRead, List.filterMap_append, List.filterMap_cons,
        Event.record, List.filterMap_nil, List.append_nil] at hx
      exact hg.read x hx
  · have hs' := sound_afterFailedLaunch hs hr pArgList reaped slot hslot
      (env.launch r.creations r.kernel).outFile (env.launch r.creations r.kernel).errFile msg
    rw [heq]
    refine ⟨⟨?_, ?_, ?_, ?_, ?_, fun _ _ => hs'⟩, ?_⟩
    · intro call hc
      simp only [afterFailedLaunch, reapCalls, List.filterMap_append, List.filterMap_cons,
        Event.reapCall, List.filterMap_nil, List.append_nil] at hc
      exact hg.reaps call hc
    · intro c hc
      simp only [afterFailedLaunch, createCalls, List.filterMap_append, List.filterMap_cons,
        Event.createCall, List.filterMap_nil, List.mem_append, List.mem_singleton] at hc
      rcases hc with hc | hc
      · exact hg.creates c hc
      · subst hc
        exact free_of_ready hs hr pArgList reaped SYS_ERROR hreaped
    · obtain ⟨children, h1, h2, h3⟩ := hg.framed
      refine ⟨children, ?_, ?_, ?_⟩
      · simpa only [afterFailedLaunch, reapCalls, List.filterMap_append, List.filterMap_cons,
          Event.reapCall, List.filterMap_nil, List.append_nil] using h1
      · exact h2
      · simp only [afterFailedLaunch]
        apply blocksOf_append_others _ _ _ h3
        intro w hw'
        simp at hw'
        subst hw'
        exact hmsg
    · intro g hgf
      simp only [afterFailedLaunch] at hgf
      rw [hf] at hgf; simp at hgf
    · intro x hx
      simp only [afterFailedLaunch, recordsRead, List.filterMap_append, List.filterMap_cons,
        Event.record, List.filterMap_nil, List.append_nil] at hx
      exact hg.read x hx
    · intro _ hst
      simp [afterFailedLaunch, SYS_ERROR, SUCCESS] at hst

theorem good_relabel {env : Env} {r r' : Run} (hg : Good env r)
    (h1 : reapCalls r'.log = reapCalls r.log) (h2 : createCalls r'.log = createCalls r.log)
    (h3 : ∀ d ∈ recordsRead r.log, d ∈ recordsRead r'.log)
    (h4 : ∀ d ∈ recordsRead r'.log, d ∈ env.records)
    (h5 : r'.stdout = r.stdout) (h6 : r'.err = r.err) (h7 : r'.fault = r.fault)
    (h8 : r'.pInfo = r.pInfo) (h9 : r'.kernel = r.kernel)
    (h10 : r'.processCount = r.processCount) (h11 : r'.status = r.status) : Good env r' := by
  refine ⟨?_, ?_, ?_, ?_, h4, ?_⟩
  · rw [h1]; exact hg.reaps
  · rw [h2]; exact hg.creates
  · rw [h1, h5, h6]; exact hg.framed
  · intro f hf
    rw [h7] at hf
    rcases hg.faults f hf with h | ⟨d, hd, hb⟩
    · exact Or.inl h
    · exact Or.inr ⟨d, h3 d hd, hb⟩
  · intro hf hc
    rw [h7] at hf
    rw [h11, h10] at hc
    exact sound_relabel (hg.sound hf hc) h8 h9 h10

theorem atHead_relabel {r r' : Run} (hh : AtHead r) (h1 : r'.pInfo = r.pInfo)
    (h2 : r'.kernel = r.kernel) (h3 : r'.processCount = r.processCount) : AtHead r' := by
  refine ⟨?_, ?_⟩
  · intro j
    have := hh.occ j
    unfold Occupied at this ⊢
    rw [h2, h3]; exact this
  · intro j s hs hp
    rw [h1] at hs
    have := hh.written j s hs hp
    unfold Occupied at this ⊢
    rw [h2]; exact this

theorem launchBody_full (env : Env) (d : CStr) (r : Run)
    (hfull : r.processCount = env.numInstances)
    (hf : (reapOne env { r with log := r.log ++ [Event.fgets d] }).fault = none) :
    launchBody env d r =
      launchOne env d (reapOne env { r with log := r.log ++ [Event.fgets d] }).lastReap
        (reapOne env { r with log := r.log ++ [Event.fgets d] }) := by
  unfold launchBody
  dsimp only
  rw [if_pos hfull]
  split
  · rename_i f h
    rw [hf] at h
    simp at h
  · rfl

theorem launchBody_full_fault (env : Env) (d : CStr) (r : Run)
    (hfull : r.processCount = env.numInstances) (f : Fault)
    (hf : (reapOne env { r with log := r.log ++ [Event.fgets d] }).fault = some f) :
    launchBody env d r = reapOne env { r with log := r.log ++ [Event.fgets d] } := by
  unfold launchBody
  dsimp only
  rw [if_pos hfull]
  split
  · rfl
  · rename_i h
    rw [hf] at h
    simp at h

theorem launchBody_notFull (env : Env) (d : CStr) (r : Run)
    (hfull : r.processCount ≠ env.numInstances) :
    launchBody env d r =
      launchOne env d none
        { r with log := r.log ++ [Event.fgets d], infoIndex := r.processCount } := by
  unfold launchBody
  dsimp only
  rw [if_neg hfull]

theorem good_launchBody {env : Env} {r : Run} (hw : WellBehaved env)
    (hN : 1 ≤ env.numInstances) (hg : Good env r) (hh : AtHead r) (hf : r.fault = none)
    (hst : r.status = SUCCESS) (d : CStr) (hd : d ∈ env.records) :
    Good env (launchBody env d r) ∧
    ((launchBody env d r).fault = none → (launchBody env d r).status = SUCCESS →
      AtHead (launchBody env d r)) := by
  have hread : ∀ x ∈ recordsRead (r.log ++ [Event.fgets d]), x ∈ env.records := by
    intro x hx
    simp only [recordsRead, List.filterMap_append, List.filterMap_cons, Event.record,
      List.filterMap_nil, List.mem_append, List.mem_singleton] at hx
    rcases hx with hx | hx
    · exact hg.read x hx
    · exact hx ▸ hd
  have hmem : d ∈ recordsRead (r.log ++ [Event.fgets d]) := by
    simp [recordsRead, Event.record]
  by_cases hfull : r.processCount = env.numInstances
  · have hg0 : Good env { r with log := r.log ++ [Event.fgets d] } :=
      good_relabel hg (by simp [reapCalls, Event.reapCall]) (by simp [createCalls, Event.createCall])
        (by intro x hx; simp [recordsRead] at hx ⊢; exact Or.inl hx) hread rfl rfl rfl rfl rfl rfl rfl
    have hh0 : AtHead { r with log := r.log ++ [Event.fgets d] } := atHead_relabel hh rfl rfl rfl
    have hs0 := hg0.sound hf (Or.inl hst)
    obtain ⟨hg1, hf1, hst1, hs1, c, hc, hpid, hfind, heq⟩ :=
      good_reapOne hw hg0 hf (show (0 : Int) < r.processCount by omega)
    have hr1 := ready_ofReap hs0 hh0 hfull hc hpid
      { pid := some c.pid, outFile := some c.outFile, errFile := some c.errFile }
      c.outFile c.errFile
    rw [launchBody_full env d r hfull hf1]
    apply good_launchOne hw hg1 hf1 hs1 (heq ▸ hr1) d
    · rw [heq]
      simp [afterReap, recordsRead, Event.record]
    · rw [heq]
      exact ⟨by show r.processCount - 1 = env.numInstances - 1; omega, rfl, c, hfind, rfl⟩
  · have hg0 : Good env { r with log := r.log ++ [Event.fgets d], infoIndex := r.processCount } :=
      good_relabel hg (by simp [reapCalls, Event.reapCall]) (by simp [createCalls, Event.createCall])
        (by intro x hx; simp [recordsRead] at hx ⊢; exact Or.inl hx) hread rfl rfl rfl rfl rfl rfl rfl
    have hs := hg.sound hf (Or.inl hst)
    have hs0 := hg0.sound hf (Or.inl hst)
    have hr0 : Ready env { r with log := r.log ++ [Event.fgets d], infoIndex := r.processCount } :=
      ready_ofNotFull hs hh hfull rfl rfl rfl rfl
    rw [launchBody_notFull env d r hfull]
    apply good_launchOne hw hg0 hf hs0 hr0 d hmem
    exact ⟨hr0.room, rfl, hh.occ⟩

theorem good_launchLoop {env : Env} (hw : WellBehaved env) (hN : 1 ≤ env.numInstances)
    (ds : List CStr) (hds : ∀ d ∈ ds, d ∈ env.records) (r : Run) (hg : Good env r)
    (hh : r.fault = none → r.status = SUCCESS → AtHead r) :
    Good env (launchLoop env ds r) := by
  induction ds generalizing r with
  | nil => exact hg
  | cons d rest ih =>
    unfold Cpc.launchLoop
    cases hf : r.fault with
    | some f => exact hg
    | none =>
      by_cases hst : r.status = SUCCESS
      · simp only [hst, if_true]
        obtain ⟨hg', hh'⟩ := good_launchBody hw hN hg (hh hf hst) hf hst d (hds d (List.mem_cons_self _ _))
        exact ih (fun x hx => hds x (List.mem_cons_of_mem _ hx)) _ hg' hh'
      · simp only [hst, if_false]
        exact hg

theorem good_drainLoop {env : Env} (hw : WellBehaved env) (n : Nat) (r : Run)
    (hg : Good env r) : Good env (drainLoop env n r) := by
  induction n generalizing r with
  | zero => exact hg
  | succ n ih =>
    unfold Cpc.drainLoop
    cases hf : r.fault with
    | some f => exact hg
    | none =>
      by_cases hpos : 0 < r.processCount
      · simp only [hpos, if_true]
        exact ih _ (good_reapOne hw hg hf hpos).1
      · simp only [hpos, if_false]
        exact hg

/-! ### From the first statement of `main` to its `return` -/

theorem checkArgs_success (env : Env) (h : checkArgs env = SUCCESS) : 1 ≤ env.numInstances := by
  unfold checkArgs at h
  by_contra hN
  have hle : env.numInstances ≤ 0 := by omega
  simp only [hle, if_true] at h
  split_ifs at h <;> simp_all [SUCCESS, ARG_ERROR, SYS_ERROR]

theorem initializeStatus_success (env : Env) :
    initializeStatus env = SUCCESS ↔ (env.malloc = true ∧ env.fopen = true) := by
  unfold initializeStatus
  cases env.malloc <;> cases env.fopen <;> simp [SUCCESS, MEM_ERROR, IO_ERROR]

theorem slotAt_freshSlots (n j : Int) (s : info_st) (h : slotAt (freshSlots n) j = some s) :
    s = { pid := none, outFile := none, errFile := none } := by
  unfold slotAt freshSlots at h
  split at h
  · obtain ⟨hlt, heq⟩ := List.getElem?_eq_some_iff.mp h
    rw [← heq]
    simp
  · simp at h

theorem controller_eq (env : Env) (r : Run) :
    controller env r = cleanUp env
      (drainLoop env (launchLoop env env.records (enterController env r)).processCount.toNat
        (launchLoop env env.records (enterController env r))) := rfl

theorem good_entry {env : Env} (hc : checkArgs env = SUCCESS) :
    Good env (enterController env (startRun env)) ∧
    ((enterController env (startRun env)).status = SUCCESS →
      AtHead (enterController env (startRun env))) := by
  have hN := checkArgs_success env hc
  refine ⟨⟨?_, ?_, ?_, ?_, ?_, ?_⟩, ?_⟩
  · intro c hc; simp [enterController, startRun, reapCalls, Event.reapCall] at hc
  · intro c hc; simp [enterController, startRun, createCalls, Event.createCall] at hc
  · refine ⟨[], by simp [enterController, startRun, reapCalls, Event.reapCall],
      by simp [enterController, startRun, Run.stdout, initialRun, blocksOf, outBlocks], ?_⟩
    simp only [enterController, startRun, initialRun]
    cases env.malloc <;> cases env.fopen <;>
      simp [blocksOf, errBlocks, isBlockWrite]
  · intro f hf; simp [enterController, startRun, initialRun] at hf
  · intro d hd; simp [enterController, startRun, recordsRead, Event.record] at hd
  · intro _ hst
    have hst' : initializeStatus env = SUCCESS := by
      rcases hst with h | h
      · exact h
      · simp [enterController] at h
    obtain ⟨hm, _⟩ := (initializeStatus_success env).mp hst'
    refine ⟨?_, ?_, ?_, ?_, ?_, ?_, ?_, ?_⟩
    · simp only [enterController, hm, if_true, freshSlots, List.length_replicate]
      omega
    · simp [enterController, startRun, initialRun]
    · simp only [enterController]; omega
    · intro c hc; simp [enterController, startRun, initialRun] at hc
    · simp [enterController, startRun, initialRun]
    · simp [enterController, startRun, initialRun]
    · intro c hc; simp [enterController, startRun, initialRun] at hc
    · intro j s _ c hc; simp [enterController, startRun, initialRun] at hc
  · intro hst
    have hst' : initializeStatus env = SUCCESS := hst
    obtain ⟨hm, _⟩ := (initializeStatus_success env).mp hst'
    refine ⟨?_, ?_⟩
    · intro j
      simp only [Occupied, enterController, startRun, initialRun]
      constructor
      · rintro ⟨c, hc, _⟩; simp at hc
      · rintro ⟨h0, h1⟩; omega
    · intro j s hs hp
      simp only [enterController, hm, if_true] at hs
      have := slotAt_freshSlots _ _ _ hs
      subst this
      simp at hp

theorem good_cleanUp {env : Env} {r : Run} (hg : Good env r) : Good env (cleanUp env r) := by
  unfold Cpc.cleanUp
  cases hf : r.fault with
  | some f => exact hg
  | none =>
    by_cases ho : env.fopen = true
    · simp only [ho, if_true]; exact hg
    · simp only [ho]
      refine ⟨hg.reaps, hg.creates, hg.framed, ?_, hg.read, ?_⟩
      · intro f hf'
        simp at hf'
        exact Or.inl ⟨hf'.symm, by simpa using ho⟩
      · intro h; simp at h

theorem good_returnStatus {env : Env} {r : Run} (hg : Good env r) :
    Good env (returnStatus r) := by
  unfold Cpc.returnStatus
  cases hf : r.fault with
  | some f => exact hg
  | none =>
    refine ⟨hg.reaps, hg.creates, ?_, ?_, hg.read, ?_⟩
    · obtain ⟨children, h1, h2, h3⟩ := hg.framed
      refine ⟨children, h1, ?_, h3⟩
      simp only [Run.stdout, List.append_nil]
      apply blocksOf_append_others _ _ _ h2
      intro w hw'
      simp at hw'
      subst hw'
      rfl
    · intro f hf'
      simp at hf'
    · intro h hc
      exact sound_relabel (hg.sound hf hc) rfl rfl rfl

/-- Under the guarantees of the operating system, `Good` holds of the whole run. -/
theorem good_main {env : Env} (hw : WellBehaved env) : Good env (main env) := by
  unfold Cpc.main beforeReturn
  apply good_returnStatus
  by_cases hc : checkArgs env = SUCCESS
  · rw [if_pos hc, controller_eq]
    have hN := checkArgs_success env hc
    apply good_cleanUp
    apply good_drainLoop hw
    obtain ⟨hg, hh⟩ := good_entry hc
    exact good_launchLoop hw hN _ (fun _ h => h) _ hg (fun _ h => hh h)
  · rw [if_neg hc]
    refine ⟨?_, ?_, ?_, ?_, ?_, ?_⟩
    · intro c h; simp [startRun, reapCalls, Event.reapCall] at h
    · intro c h; simp [startRun, createCalls, Event.createCall] at h
    · exact ⟨[], by simp [startRun, reapCalls, Event.reapCall],
        by simp [startRun, Run.stdout, initialRun, blocksOf, outBlocks],
        by simp [startRun, initialRun, blocksOf, errBlocks]⟩
    · intro f hf; simp [startRun, initialRun] at hf
    · intro d hd; simp [startRun, recordsRead, Event.record] at hd
    · intro _ h
      rcases h with h | h
      · exact absurd h hc
      · simp [startRun, initialRun] at h

/-! ### The invariant `Acct` along a run -/

theorem orAll_append (a b : List Nat) : orAll (a ++ b) = orAll a ||| orAll b := by
  induction a with
  | nil => simp [orAll]
  | cons x xs ih =>
    simp only [orAll, List.cons_append, List.foldr_cons] at ih ⊢
    rw [ih, Nat.lor_assoc]

theorem lor_eq_zero (a b : Nat) : a ||| b = 0 ↔ a = 0 ∧ b = 0 := by
  constructor
  · intro h
    have hbit : ∀ i, (a.testBit i || b.testBit i) = false := by
      intro i
      rw [← Nat.testBit_or, h]
      simp
    constructor
    · apply Nat.eq_of_testBit_eq
      intro i
      have := hbit i
      simp only [Bool.or_eq_false_iff] at this
      simp [this.1]
    · apply Nat.eq_of_testBit_eq
      intro i
      have := hbit i
      simp only [Bool.or_eq_false_iff] at this
      simp [this.2]
  · rintro ⟨rfl, rfl⟩
    simp

theorem orAll_eq_zero (l : List Nat) : orAll l = 0 ↔ ∀ x ∈ l, x = 0 := by
  induction l with
  | nil => simp [orAll]
  | cons x xs ih =>
    simp only [orAll, List.foldr_cons, List.mem_cons, forall_eq_or_imp] at ih ⊢
    rw [lor_eq_zero, ih]

theorem and_orAll (l : List Nat) (x : Nat) (hx : x ∈ l) : x &&& orAll l = x := by
  induction l with
  | nil => simp at hx
  | cons y ys ih =>
    simp only [orAll, List.foldr_cons] at ih ⊢
    apply Nat.eq_of_testBit_eq
    intro i
    rcases List.mem_cons.mp hx with h | h
    · subst h
      simp only [Nat.testBit_and, Nat.testBit_or]
      cases x.testBit i <;> simp
    · have := congrArg (fun n => n.testBit i) (ih h)
      simp only [Nat.testBit_and] at this
      simp only [Nat.testBit_and, Nat.testBit_or]
      cases hxb : x.testBit i <;> simp [hxb] at this ⊢
      simp [this]

theorem acct_reapOne {env : Env} {pending : List CStr} {r : Run} (ha : Acct env pending r)
    (hN : 1 ≤ env.numInstances) (hf : r.fault = none) (hpos : 0 < r.processCount) :
    Acct env pending (reapOne env r) ∧ (reapOne env r).status = r.status ∧
    recordsRead (reapOne env r).log = recordsRead r.log ∧
    ((reapOne env r).fault = none → (reapOne env r).processCount = r.processCount - 1) := by
  rcases reapOne_cases env r hf with ⟨f, hfault, hlog, hexit, hstat, _, _⟩ | ⟨i, slot, o, e, _, _, _, _, _, heq⟩
  · refine ⟨⟨?_, ?_, ?_, ?_, ?_, ?_, ?_, ?_, ?_, ?_, ?_, ?_⟩, ?_, by rw [hlog], ?_⟩
    · rw [hlog]; exact ha.counts
    · rw [hlog]; exact ha.order
    · rw [hlog]; exact ha.reapStatus
    · rw [hlog]; exact ha.launched
    · rw [hexit]; exact ha.noexit
    · intro _ h; rw [hfault] at h; simp at h
    · intro h; rw [hfault] at h; simp at h
    · intro h; rw [hfault] at h; simp at h
    · intro h; rw [hfault] at h; simp at h
    · intro h; rw [hfault] at h; simp at h
    · rw [hlog]; exact ha.calls
    · intro h; rw [hfault] at h; simp at h
    · exact hstat
    · intro h; rw [hfault] at h; simp at h
  · rw [heq]
    refine ⟨⟨?_, ?_, ?_, ?_, ?_, ?_, ?_, ?_, ?_, ?_, ?_, ?_⟩, rfl, ?_, fun _ => rfl⟩
    · intro v hv
      simp only [afterReap, processCounts, List.filterMap_append, List.filterMap_cons,
        Event.count, List.filterMap_nil, List.mem_append, List.mem_singleton] at hv
      rcases hv with hv | hv
      · exact ha.counts v hv
      · subst hv
        have := ha.pc hN hf
        omega
    · simp only [afterReap]
      rw [List.pairwise_append]
      refine ⟨ha.order, ?_, ?_⟩
      · simp [Stops]
      · intro a _ b hb c _ _
        simp at hb
        rcases hb with hb | hb <;> subst hb <;> exact ⟨rfl, rfl⟩
    · intro c hc
      simp only [afterReap, reapCalls, List.filterMap_append, List.filterMap_cons,
        Event.reapCall, List.filterMap_nil, List.mem_append, List.mem_singleton] at hc
      rcases hc with hc | hc
      · exact ha.reapStatus c hc
      · subst hc; rfl
    · intro c hc
      simp only [afterReap, createCalls, List.filterMap_append, List.filterMap_cons,
        Event.createCall, List.filterMap_nil, List.append_nil] at hc
      exact ha.launched c hc
    · exact ha.noexit
    · intro hN _
      have hpc := ha.pc hN hf
      simp only [afterReap]
      omega
    · intro _
      simp only [afterReap, reapCalls, List.filterMap_append, List.filterMap_cons,
        Event.reapCall, List.filterMap_nil, List.map_append, List.map_cons, List.map_nil]
      rw [orAll_append, ← reapCalls, ← ha.child hf]
      simp [orAll, reapCallOf]
    · intro _
      have := ha.st hf
      simpa only [afterReap, callStatuses, List.filterMap_append, List.filterMap_cons,
        Event.callStatus, List.filterMap_nil, List.append_nil] using this
    · intro _
      have := ha.cnt hf
      simp only [afterReap, reapCalls, createCalls, List.filterMap_append, List.filterMap_cons,
        Event.reapCall, Event.createCall, List.filterMap_nil, List.append_nil,
        List.length_append, List.length_cons, List.length_nil] at this ⊢
      push_cast
      omega
    · intro _
      have := ha.args hf
      simpa only [afterReap, createCalls, recordsRead, List.filterMap_append,
        List.filterMap_cons, Event.createCall, Event.record, List.filterMap_nil,
        List.append_nil] using this
    · intro hc
      have := ha.calls hc
      simpa only [afterReap, createCalls, callStatuses, List.filterMap_append,
        List.filterMap_cons, Event.createCall, Event.callStatus, List.filterMap_nil,
        List.append_nil] using this
    · intro _
      have := ha.last hf
      simpa only [afterReap, callStatuses, List.filterMap_append,
        List.filterMap_cons, Event.callStatus, List.filterMap_nil,
        List.append_nil] using this
    · simp only [afterReap, recordsRead, List.filterMap_append, List.filterMap_cons,
        Event.record, List.filterMap_nil, List.append_nil]

theorem acct_of_fault {env : Env} {p q : List CStr} {r : Run} (ha : Acct env p r) (f : Fault)
    (hf : r.fault = some f) : Acct env q r := by
  refine ⟨ha.counts, ha.order, ha.reapStatus, ha.launched, ha.noexit, ?_, ?_, ?_, ?_, ?_,
    ha.calls, ?_⟩
  · intro _ h; rw [hf] at h; simp at h
  · intro h; rw [hf] at h; simp at h
  · intro h; rw [hf] at h; simp at h
  · intro h; rw [hf] at h; simp at h
  · intro h; rw [hf] at h; simp at h
  · intro h; rw [hf] at h; simp at h

theorem acct_no_failure {env : Env} {p : List CStr} {r : Run} (ha : Acct env p r)
    (hf : r.fault = none) (hst : r.status = SUCCESS) :
    ∀ a ∈ r.log, ∀ c, a = Event.createChild c → c.status = SUCCESS := by
  intro a hmem c hc
  apply (ha.st hf).mp hst
  subst hc
  simp only [callStatuses, List.mem_filterMap]
  exact ⟨_, hmem, rfl⟩

theorem acct_launchOne {env : Env} {d : CStr} {r : Run} (ha : Acct env [d] r)
    (hN : 1 ≤ env.numInstances) (hf : r.fault = none) (hst : r.status = SUCCESS)
    (hroom : r.processCount < env.numInstances) (reaped : Option ReapCall) :
    Acct env [] (launchOne env d reaped r) ∧
    recordsRead (launchOne env d reaped r).log = recordsRead r.log := by
  have hok := acct_no_failure ha hf hst
  rcases launchOne_cases env d reaped r hf with
    ⟨f, hfault, hlog, _, _, _, hexit, _⟩ |
    ⟨pArgList, slot, hb, hslot, ⟨o, e, pid, hl, heq⟩ | ⟨msg, hmsg, hcause, heq⟩⟩
  · refine ⟨⟨?_, ?_, ?_, ?_, ?_, ?_, ?_, ?_, ?_, ?_, ?_, ?_⟩, by rw [hlog]⟩
    · rw [hlog]; exact ha.counts
    · rw [hlog]; exact ha.order
    · rw [hlog]; exact ha.reapStatus
    · rw [hlog]; exact ha.launched
    · rw [hexit]; exact ha.noexit
    · intro _ h; rw [hfault] at h; simp at h
    · intro h; rw [hfault] at h; simp at h
    · intro h; rw [hfault] at h; simp at h
    · intro h; rw [hfault] at h; simp at h
    · intro h; rw [hfault] at h; simp at h
    · rw [hlog]; exact ha.calls
    · intro h; rw [hfault] at h; simp at h
  · rw [heq]
    have hpc := ha.pc hN hf
    refine ⟨⟨?_, ?_, ?_, ?_, ?_, ?_, ?_, ?_, ?_, ?_, ?_, ?_⟩, ?_⟩
    · intro v hv
      simp only [afterLaunch, processCounts, List.filterMap_append, List.filterMap_cons,
        Event.count, List.filterMap_nil, List.mem_append, List.mem_singleton] at hv
      rcases hv with hv | hv
      · exact ha.counts v hv
      · subst hv; omega
    · simp only [afterLaunch]
      rw [List.pairwise_append]
      refine ⟨ha.order, ?_, ?_⟩
      · simp [Stops, createCallOf]
      · intro a hmem b _ c hc hne
        exact absurd (hok a hmem c hc) hne
    · intro c hc
      simp only [afterLaunch, reapCalls, List.filterMap_append, List.filterMap_cons,
        Event.reapCall, List.filterMap_nil, List.append_nil] at hc
      exact ha.reapStatus c hc
    · intro c hc hne
      simp only [afterLaunch, createCalls, List.filterMap_append, List.filterMap_cons,
        Event.createCall, List.filterMap_nil, List.mem_append, List.mem_singleton] at hc
      rcases hc with hc | hc
      · exact ha.launched c hc hne
      · subst hc
        simp [createCallOf] at hne
    · exact ha.noexit
    · intro _ _
      simp only [afterLaunch]
      omega
    · intro _
      have := ha.child hf
      simpa only [afterLaunch, reapCalls, List.filterMap_append, List.filterMap_cons,
        Event.reapCall, List.filterMap_nil, List.append_nil] using this
    · intro _
      have h1 := (ha.st hf).mp hst
      simp only [afterLaunch, callStatuses, List.filterMap_append, List.filterMap_cons,
        Event.callStatus, List.filterMap_nil, List.mem_append, List.mem_singleton, true_iff]
      intro s hs
      rcases hs with hs | hs
      · exact h1 s hs
      · subst hs; rfl
    · intro _
      have := ha.cnt hf
      simp only [afterLaunch, reapCalls, createCalls, List.filterMap_append, List.filterMap_cons,
        Event.reapCall, Event.createCall, List.filterMap_nil, List.append_nil,
        List.filter_append, List.length_append] at this ⊢
      simp only [createCallOf, decide_True, List.filter_cons_of_pos, List.filter_nil,
        List.length_cons, List.length_nil]
      push_cast
      omega
    · intro _
      have := ha.args hf
      simp only [afterLaunch, createCalls, recordsRead, List.filterMap_append,
        List.filterMap_cons, Event.createCall, Event.record, List.filterMap_nil,
        List.append_nil, List.map_append, List.map_cons, List.map_nil, createCallOf] at this ⊢
      rw [← this, hb]
    · intro hc
      have := ha.calls hc
      simp only [afterLaunch, createCalls, callStatuses, List.filterMap_append,
        List.filterMap_cons, Event.createCall, Event.callStatus, List.filterMap_nil,
        List.map_append, List.map_cons, List.map_nil] at this ⊢
      rw [this]
      simp
    · intro _
      simp only [afterLaunch, callStatuses, List.filterMap_append,
        List.filterMap_cons, Event.callStatus, List.filterMap_nil, createCallOf]
      simp
    · simp only [afterLaunch, recordsRead, List.filterMap_append, List.filterMap_cons,
        Event.record, List.filterMap_nil, List.append_nil]
  · rw [heq]
    refine ⟨⟨?_, ?_, ?_, ?_, ?_, ?_, ?_, ?_, ?_, ?_, ?_, ?_⟩, ?_⟩
    · intro v hv
      simp only [afterFailedLaunch, processCounts, List.filterMap_append, List.filterMap_cons,
        Event.count, List.filterMap_nil, List.append_nil] at hv
      exact ha.counts v hv
    · simp only [afterFailedLaunch]
      rw [List.pairwise_append]
      refine ⟨ha.order, by simp, ?_⟩
      intro a hmem b _ c hc hne
      exact absurd (hok a hmem c hc) hne
    · intro c hc
      simp only [afterFailedLaunch, reapCalls, List.filterMap_append, List.filterMap_cons,
        Event.reapCall, List.filterMap_nil, List.append_nil] at hc
      exact ha.reapStatus c hc
    · intro c hc hne
      simp only [afterFailedLaunch, createCalls, List.filterMap_append, List.filterMap_cons,
        Event.createCall, List.filterMap_nil, List.mem_append, List.mem_singleton] at hc
      rcases hc with hc | hc
      · exact ha.launched c hc hne
      · exact ⟨r.creations, r.kernel, hcause⟩
    · exact ha.noexit
    · intro hN' _
      exact ha.pc hN' hf
    · intro _
      have := ha.child hf
      simpa only [afterFailedLaunch, reapCalls, List.filterMap_append, List.filterMap_cons,
        Event.reapCall, List.filterMap_nil, List.append_nil] using this
    · intro _
      simp only [afterFailedLaunch, callStatuses, List.filterMap_append, List.filterMap_cons,
        Event.callStatus, List.filterMap_nil, List.mem_append, List.mem_singleton]
      constructor
      · intro h; simp [SYS_ERROR, SUCCESS] at h
      · intro h
        have := h SYS_ERROR (Or.inr rfl)
        simp [SYS_ERROR, SUCCESS] at this
    · intro _
      have := ha.cnt hf
      simp only [afterFailedLaunch, reapCalls, createCalls, List.filterMap_append,
        List.filterMap_cons, Event.reapCall, Event.createCall, List.filterMap_nil,
        List.append_nil, List.filter_append, List.length_append] at this ⊢
      simp only [createCallOf, SYS_ERROR, SUCCESS] at this ⊢
      simpa using this
    · intro _
      have := ha.args hf
      simp only [afterFailedLaunch, createCalls, recordsRead, List.filterMap_append,
        List.filterMap_cons, Event.createCall, Event.record, List.filterMap_nil,
        List.append_nil, List.map_append, List.map_cons, List.map_nil, createCallOf] at this ⊢
      rw [← this, hb]
    · intro hc
      have := ha.calls hc
      simp only [afterFailedLaunch, createCalls, callStatuses, List.filterMap_append,
        List.filterMap_cons, Event.createCall, Event.callStatus, List.filterMap_nil,
        List.map_append, List.map_cons, List.map_nil] at this ⊢
      rw [this]
      simp
    · intro _
      simp only [afterFailedLaunch, callStatuses, List.filterMap_append,
        List.filterMap_cons, Event.callStatus, List.filterMap_nil, createCallOf]
      simp
    · simp only [afterFailedLaunch, recordsRead, List.filterMap_append, List.filterMap_cons,
        Event.record, List.filterMap_nil, List.append_nil]

theorem acct_launchBody {env : Env} {r : Run} (ha : Acct env [] r)
    (hN : 1 ≤ env.numInstances) (hf : r.fault = none) (hst : r.status = SUCCESS) (d : CStr) :
    Acct env [] (Cpc.launchBody env d r) ∧
    recordsRead (Cpc.launchBody env d r).log = recordsRead r.log ++ [d] := by
  have hok := acct_no_failure ha hf hst
  have ha0 : Acct env [d] { r with log := r.log ++ [Event.fgets d] } := by
    refine ⟨?_, ?_, ?_, ?_, ha.noexit, ha.pc, ?_, ?_, ?_, ?_, ?_, ?_⟩
    · intro v hv
      simp only [processCounts, List.filterMap_append, List.filterMap_cons, Event.count,
        List.filterMap_nil, List.append_nil] at hv
      exact ha.counts v hv
    · rw [List.pairwise_append]
      refine ⟨ha.order, by simp, ?_⟩
      intro a hmem b _ c hc hne
      exact absurd (hok a hmem c hc) hne
    · intro c hc
      simp only [reapCalls, List.filterMap_append, List.filterMap_cons, Event.reapCall,
        List.filterMap_nil, List.append_nil] at hc
      exact ha.reapStatus c hc
    · intro c hc
      simp only [createCalls, List.filterMap_append, List.filterMap_cons, Event.createCall,
        List.filterMap_nil, List.append_nil] at hc
      exact ha.launched c hc
    · intro h
      have := ha.child h
      simpa only [reapCalls, List.filterMap_append, List.filterMap_cons, Event.reapCall,
        List.filterMap_nil, List.append_nil] using this
    · intro h
      have := ha.st h
      simpa only [callStatuses, List.filterMap_append, List.filterMap_cons, Event.callStatus,
        List.filterMap_nil, List.append_nil] using this
    · intro h
      have := ha.cnt h
      simpa only [reapCalls, createCalls, List.filterMap_append, List.filterMap_cons,
        Event.reapCall, Event.createCall, List.filterMap_nil, List.append_nil] using this
    · intro h
      have := ha.args h
      simp only [createCalls, recordsRead, List.filterMap_append, List.filterMap_cons,
        Event.createCall, Event.record, List.filterMap_nil, List.append_nil, List.map_append,
        List.map_cons, List.map_nil] at this ⊢
      rw [this]
    · intro hc
      have := ha.calls hc
      simpa only [createCalls, callStatuses, List.filterMap_append, List.filterMap_cons,
        Event.createCall, Event.callStatus, List.filterMap_nil, List.append_nil] using this
    · intro h
      have := ha.last h
      simpa only [callStatuses, List.filterMap_append, List.filterMap_cons,
        Event.callStatus, List.filterMap_nil, List.append_nil] using this
  have hrec : recordsRead (r.log ++ [Event.fgets d]) = recordsRead r.log ++ [d] := by
    simp [recordsRead, Event.record]
  by_cases hfull : r.processCount = env.numInstances
  · obtain ⟨ha1, hst1, hrec1, hpc1⟩ :=
      acct_reapOne ha0 hN hf (show (0 : Int) < r.processCount by omega)
    cases hf1 : (Cpc.reapOne env { r with log := r.log ++ [Event.fgets d] }).fault with
    | some f =>
      rw [launchBody_full_fault env d r hfull f hf1]
      exact ⟨acct_of_fault ha1 f hf1, by rw [hrec1]; exact hrec⟩
    | none =>
      rw [launchBody_full env d r hfull hf1]
      have hroom : (Cpc.reapOne env { r with log := r.log ++ [Event.fgets d] }).processCount <
          env.numInstances := by
        rw [hpc1 hf1]
        show r.processCount - 1 < env.numInstances
        omega
      obtain ⟨ha2, hrec2⟩ := acct_launchOne ha1 hN hf1 (hst1.trans hst) hroom
        (Cpc.reapOne env { r with log := r.log ++ [Event.fgets d] }).lastReap
      exact ⟨ha2, by rw [hrec2, hrec1]; exact hrec⟩
  · rw [launchBody_notFull env d r hfull]
    have ha0' : Acct env [d]
        { r with log := r.log ++ [Event.fgets d], infoIndex := r.processCount } :=
      ⟨ha0.counts, ha0.order, ha0.reapStatus, ha0.launched, ha0.noexit, ha0.pc, ha0.child,
        ha0.st, ha0.cnt, ha0.args, ha0.calls, ha0.last⟩
    have hroom : r.processCount < env.numInstances := by
      have := ha.pc hN hf
      omega
    obtain ⟨ha2, hrec2⟩ := acct_launchOne ha0' hN hf hst hroom none
    exact ⟨ha2, by rw [hrec2]; exact hrec⟩

theorem acct_launchLoop {env : Env} (hN : 1 ≤ env.numInstances) (ds : List CStr) (r : Run)
    (ha : Acct env [] r) :
    Acct env [] (Cpc.launchLoop env ds r) ∧
    ((Cpc.launchLoop env ds r).fault = none → (Cpc.launchLoop env ds r).status = SUCCESS →
      recordsRead (Cpc.launchLoop env ds r).log = recordsRead r.log ++ ds) := by
  induction ds generalizing r with
  | nil => exact ⟨ha, fun _ _ => by simp [Cpc.launchLoop]⟩
  | cons d rest ih =>
    unfold Cpc.launchLoop
    cases hf : r.fault with
    | some f =>
      refine ⟨ha, fun h => ?_⟩
      rw [hf] at h; simp at h
    | none =>
      by_cases hst : r.status = SUCCESS
      · simp only [hst, if_true]
        obtain ⟨ha', hrec⟩ := acct_launchBody ha hN hf hst d
        obtain ⟨ha'', hrec'⟩ := ih _ ha'
        refine ⟨ha'', fun h1 h2 => ?_⟩
        rw [hrec' h1 h2, hrec]
        simp
      · rw [if_neg hst]
        exact ⟨ha, fun _ h => absurd h hst⟩

theorem drainLoop_of_fault (env : Env) (n : Nat) (r : Run) (f : Fault) (hf : r.fault = some f) :
    Cpc.drainLoop env n r = r := by
  cases n with
  | zero => rfl
  | succ n => simp [drainLoop, hf]

theorem acct_drainLoop {env : Env} (hN : 1 ≤ env.numInstances) (n : Nat) (r : Run)
    (ha : Acct env [] r) (hn : r.processCount ≤ n) :
    Acct env [] (Cpc.drainLoop env n r) ∧ (Cpc.drainLoop env n r).status = r.status ∧
    recordsRead (Cpc.drainLoop env n r).log = recordsRead r.log ∧
    ((Cpc.drainLoop env n r).fault = none → (Cpc.drainLoop env n r).processCount ≤ 0) := by
  induction n generalizing r with
  | zero => exact ⟨ha, rfl, rfl, fun _ => by simpa using hn⟩
  | succ n ih =>
    unfold Cpc.drainLoop
    cases hf : r.fault with
    | some f =>
      refine ⟨ha, rfl, rfl, fun h => ?_⟩
      rw [hf] at h; simp at h
    | none =>
      dsimp only
      by_cases hpos : 0 < r.processCount
      · simp only [hpos, if_true]
        obtain ⟨ha1, hst1, hrec1, hpc1⟩ := acct_reapOne ha hN hf hpos
        cases hf1 : (Cpc.reapOne env r).fault with
        | some f =>
          rw [drainLoop_of_fault env n _ f hf1]
          refine ⟨ha1, hst1, hrec1, fun h => ?_⟩
          rw [hf1] at h; simp at h
        | none =>
          have hle : (Cpc.reapOne env r).processCount ≤ n := by
            rw [hpc1 hf1]
            push_cast at hn
            omega
          obtain ⟨ha2, hst2, hrec2, hpc2⟩ := ih _ ha1 hle
          exact ⟨ha2, hst2.trans hst1, hrec2.trans hrec1, hpc2⟩
      · rw [if_neg hpos]
        exact ⟨ha, rfl, rfl, fun _ => by omega⟩

theorem acct_cleanUp {env : Env} {r : Run} (ha : Acct env [] r) :
    Acct env [] (Cpc.cleanUp env r) := by
  unfold Cpc.cleanUp
  cases hf : r.fault with
  | some f => exact ha
  | none =>
    by_cases ho : env.fopen = true
    · simp only [ho, if_true]; exact ha
    · simp only [ho]
      exact acct_of_fault (p := []) (f := Fault.fcloseNull)
        ⟨ha.counts, ha.order, ha.reapStatus, ha.launched, ha.noexit,
          fun _ h => by simp at h, fun h => by simp at h, fun h => by simp at h,
          fun h => by simp at h, fun h => by simp at h, ha.calls, fun h => by simp at h⟩ rfl

/-- The state in which the launch loop is entered. -/
theorem acct_entry {env : Env} (hc : checkArgs env = SUCCESS) :
    Acct env [] (enterController env (startRun env)) := by
  have hN := checkArgs_success env hc
  refine ⟨?_, ?_, ?_, ?_, rfl, ?_, ?_, ?_, ?_, ?_, ?_, ?_⟩
  · intro v hv
    simp [enterController, startRun, processCounts, Event.count] at hv
    subst hv; omega
  · simp [enterController, startRun, Stops]
  · intro c hc; simp [enterController, startRun, reapCalls, Event.reapCall] at hc
  · intro c hc; simp [enterController, startRun, createCalls, Event.createCall] at hc
  · intro _ _; simp only [enterController]; omega
  · intro _; simp [enterController, startRun, reapCalls, Event.reapCall, orAll, initialRun]
  · intro _; simp [enterController, startRun, callStatuses, Event.callStatus, hc]
  · intro _; simp [enterController, startRun, reapCalls, createCalls, Event.reapCall, Event.createCall]
  · intro _; simp [enterController, startRun, createCalls, recordsRead, Event.createCall, Event.record]
  · intro _; simp [enterController, startRun, createCalls, callStatuses, Event.createCall, Event.callStatus, hc]
  · intro _; simp [enterController, startRun, callStatuses, Event.callStatus]

theorem cleanUp_of_ok (env : Env) (r : Run) (h : (cleanUp env r).fault = none) :
    cleanUp env r = r := by
  unfold cleanUp at h ⊢
  cases hf : r.fault with
  | some f => rfl
  | none =>
    rw [hf] at h
    dsimp only at h ⊢
    by_cases ho : env.fopen = true
    · rw [if_pos ho]
    · rw [if_neg ho] at h; simp at h

/-- What the controller leaves when the run reaches the `return` of `main`. -/
theorem acct_beforeReturn (env : Env) :
    Acct env [] (beforeReturn env) ∧
    ((beforeReturn env).fault = none → (beforeReturn env).processCount ≤ 0) ∧
    (checkArgs env = SUCCESS → (beforeReturn env).fault = none →
      (beforeReturn env).status = SUCCESS → recordsRead (beforeReturn env).log = env.records) := by
  unfold Cpc.beforeReturn
  by_cases hc : checkArgs env = SUCCESS
  · rw [if_pos hc, controller_eq]
    have hN := checkArgs_success env hc
    obtain ⟨ha1, hrec1⟩ := acct_launchLoop hN env.records _ (acct_entry hc)
    obtain ⟨ha2, hst2, hrec2, hpc2⟩ := acct_drainLoop hN _ _ ha1 (Int.self_le_toNat _)
    refine ⟨acct_cleanUp ha2, ?_, ?_⟩
    · intro h
      have heq := cleanUp_of_ok env _ h
      rw [heq] at h ⊢
      exact hpc2 h
    · intro _ h hst
      have heq := cleanUp_of_ok env _ h
      rw [heq] at h hst ⊢
      rw [hrec2]
      have hf1 : (Cpc.launchLoop env env.records (enterController env (startRun env))).fault =
          none := by
        cases hfl : (Cpc.launchLoop env env.records (enterController env (startRun env))).fault with
        | none => rfl
        | some f =>
          rw [drainLoop_of_fault env _ _ f hfl] at h
          exact absurd h (by rw [hfl]; simp)
      rw [hrec1 hf1 (hst2 ▸ hst)]
      simp [enterController, startRun, recordsRead, Event.record]
  · rw [if_neg hc]
    refine ⟨⟨?_, ?_, ?_, ?_, rfl, ?_, ?_, ?_, ?_, ?_, fun h => absurd h hc, ?_⟩,
      fun _ => le_refl _, fun h => absurd h hc⟩
    · intro v hv; simp [startRun, processCounts, Event.count] at hv
    · simp [startRun]
    · intro c h; simp [startRun, reapCalls, Event.reapCall] at h
    · intro c h; simp [startRun, createCalls, Event.createCall] at h
    · intro hN _; simp only [startRun, initialRun]; omega
    · intro _; simp [startRun, reapCalls, Event.reapCall, orAll, initialRun]
    · intro _; simp [startRun, callStatuses, Event.callStatus]
    · intro _; simp [startRun, reapCalls, createCalls, Event.reapCall, Event.createCall, initialRun]
    · intro _; simp [startRun, createCalls, recordsRead, Event.createCall, Event.record]
    · intro _; simp [startRun, callStatuses, Event.callStatus]

/-! ### Once the pool was full, every launch reuses a reaped slot -/

theorem reuse_reapOne (env : Env) (r : Run) (hf : r.fault = none)
    (h : r.log.Pairwise Reuses) :
    (reapOne env r).log.Pairwise Reuses ∧
    ((reapOne env r).fault = none → ∃ call, (reapOne env r).lastReap = some call) := by
  rcases reapOne_cases env r hf with ⟨f, hfault, hlog, _⟩ | ⟨i, slot, o, e, _, _, _, _, _, heq⟩
  · refine ⟨by rw [hlog]; exact h, fun h' => ?_⟩
    rw [hfault] at h'; simp at h'
  · rw [heq]
    refine ⟨?_, fun _ => ⟨_, rfl⟩⟩
    simp only [afterReap]
    rw [List.pairwise_append]
    refine ⟨h, by simp [Reuses], ?_⟩
    intro a _ b hb call e' _ hbe
    simp at hb
    rcases hb with hb | hb <;> subst hb <;> simp at hbe

theorem reuse_launchOne (env : Env) (d : CStr) (reaped : Option ReapCall) (r : Run)
    (hf : r.fault = none) (h : r.log.Pairwise Reuses)
    (hre : reaped = none → reapCalls r.log = []) :
    (launchOne env d reaped r).log.Pairwise Reuses ∧
    reapCalls (launchOne env d reaped r).log = reapCalls r.log ∧
    ((launchOne env d reaped r).fault = none → (launchOne env d reaped r).status = SUCCESS →
      (launchOne env d reaped r).processCount = r.processCount + 1) := by
  have hnew : ∀ a ∈ r.log, ∀ st, Reuses a (Event.createChild (createCallOf r
      (match buildArgList env.command d env.optargs with
        | Except.ok l => l
        | Except.error _ => []) reaped st)) := by
    intro a ha st call e hcall he
    simp only [Event.createChild.injEq] at he
    subst he
    simp only [createCallOf]
    intro hnone
    have := hre hnone
    have hmem : call ∈ reapCalls r.log := by
      simp only [reapCalls, List.mem_filterMap]
      exact ⟨a, ha, by rw [hcall]; rfl⟩
    rw [this] at hmem
    simp at hmem
  rcases launchOne_cases env d reaped r hf with
    ⟨f, hfault, hlog, _⟩ |
    ⟨pArgList, slot, hb, hslot, ⟨o, e, pid, hl, heq⟩ | ⟨msg, hmsg, hcause, heq⟩⟩
  · refine ⟨by rw [hlog]; exact h, by rw [hlog], fun h' => ?_⟩
    rw [hfault] at h'; simp at h'
  · rw [heq]
    rw [hb] at hnew
    refine ⟨?_, ?_, fun _ _ => rfl⟩
    · simp only [afterLaunch]
      rw [List.pairwise_append]
      refine ⟨h, by simp [Reuses], ?_⟩
      intro a ha b hb'
      simp at hb'
      rcases hb' with hb' | hb'
      · subst hb'; exact hnew a ha SUCCESS
      · subst hb'; intro call e' _ hbe; simp at hbe
    · simp [afterLaunch, reapCalls, Event.reapCall]
  · rw [heq]
    rw [hb] at hnew
    refine ⟨?_, ?_, fun _ hst => ?_⟩
    · simp only [afterFailedLaunch]
      rw [List.pairwise_append]
      refine ⟨h, by simp, ?_⟩
      intro a ha b hb'
      simp at hb'
      subst hb'
      exact hnew a ha SYS_ERROR
    · simp [afterFailedLaunch, reapCalls, Event.reapCall]
    · simp [afterFailedLaunch, SYS_ERROR, SUCCESS] at hst

theorem reuse_launchBody (env : Env) (r : Run) (hf : r.fault = none) (d : CStr)
    (h : r.log.Pairwise Reuses)
    (hfresh : r.processCount ≠ env.numInstances → reapCalls r.log = []) :
    (launchBody env d r).log.Pairwise Reuses ∧
    ((launchBody env d r).fault = none → (launchBody env d r).status = SUCCESS →
      (launchBody env d r).processCount ≠ env.numInstances →
      reapCalls (launchBody env d r).log = []) := by
  have h0 : (r.log ++ [Event.fgets d]).Pairwise Reuses := by
    rw [List.pairwise_append]
    refine ⟨h, by simp, ?_⟩
    intro a _ b hb call e _ hbe
    simp at hb
    subst hb
    simp at hbe
  by_cases hfull : r.processCount = env.numInstances
  · obtain ⟨h1, hlast⟩ := reuse_reapOne env { r with log := r.log ++ [Event.fgets d] } hf h0
    cases hf1 : (reapOne env { r with log := r.log ++ [Event.fgets d] }).fault with
    | some f =>
      rw [launchBody_full_fault env d r hfull f hf1]
      refine ⟨h1, fun h' => ?_⟩
      rw [hf1] at h'; simp at h'
    | none =>
      rw [launchBody_full env d r hfull hf1]
      obtain ⟨call, hcall⟩ := hlast hf1
      obtain ⟨h2, _, hpc2⟩ := reuse_launchOne env d
        (reapOne env { r with log := r.log ++ [Event.fgets d] }).lastReap _ hf1 h1
        (by rw [hcall]; intro hx; simp at hx)
      refine ⟨h2, fun hf2 hst2 hne => ?_⟩
      exfalso
      apply hne
      rw [hpc2 hf2 hst2]
      rcases reapOne_cases env { r with log := r.log ++ [Event.fgets d] } hf with
        ⟨f, hfault, _⟩ | ⟨i, slot, o, e, _, _, _, _, _, heq⟩
      · rw [hfault] at hf1; simp at hf1
      · rw [heq]
        show r.processCount - 1 + 1 = env.numInstances
        omega
  · rw [launchBody_notFull env d r hfull]
    obtain ⟨h2, hr2, _⟩ := reuse_launchOne env d none
      { r with log := r.log ++ [Event.fgets d], infoIndex := r.processCount } hf h0
      (fun _ => by
        have := hfresh hfull
        simpa [reapCalls, Event.reapCall] using this)
    refine ⟨h2, fun _ _ _ => ?_⟩
    rw [hr2]
    have := hfresh hfull
    simpa [reapCalls, Event.reapCall] using this

theorem reuse_launchLoop {env : Env} (hN : 1 ≤ env.numInstances) (ds : List CStr) (r : Run)
    (ha : Acct env [] r) (h : r.log.Pairwise Reuses)
    (hfresh : r.fault = none → r.status = SUCCESS → r.processCount ≠ env.numInstances →
      reapCalls r.log = []) :
    (launchLoop env ds r).log.Pairwise Reuses := by
  induction ds generalizing r with
  | nil => exact h
  | cons d rest ih =>
    unfold launchLoop
    cases hf : r.fault with
    | some f => exact h
    | none =>
      dsimp only
      by_cases hst : r.status = SUCCESS
      · rw [if_pos hst]
        obtain ⟨h', hfresh'⟩ := reuse_launchBody env r hf d h (hfresh hf hst)
        exact ih _ (acct_launchBody ha hN hf hst d).1 h' hfresh'
      · rw [if_neg hst]
        exact h

theorem reuse_drainLoop (env : Env) (n : Nat) (r : Run) (h : r.log.Pairwise Reuses) :
    (drainLoop env n r).log.Pairwise Reuses := by
  induction n generalizing r with
  | zero => exact h
  | succ n ih =>
    unfold drainLoop
    cases hf : r.fault with
    | some f => exact h
    | none =>
      dsimp only
      by_cases hpos : 0 < r.processCount
      · rw [if_pos hpos]
        exact ih _ (reuse_reapOne env r hf h).1
      · rw [if_neg hpos]
        exact h

theorem cleanUp_log (env : Env) (r : Run) : (cleanUp env r).log = r.log := by
  unfold cleanUp
  split
  · rfl
  · split <;> rfl

theorem reuse_beforeReturn (env : Env) : (beforeReturn env).log.Pairwise Reuses := by
  unfold beforeReturn
  by_cases hc : checkArgs env = SUCCESS
  · rw [if_pos hc, controller_eq, cleanUp_log]
    apply reuse_drainLoop
    apply reuse_launchLoop (checkArgs_success env hc) _ _ (acct_entry hc)
    · simp [enterController, startRun, Reuses]
    · intro _ _ _
      simp [enterController, startRun, reapCalls, Event.reapCall]
  · rw [if_neg hc]
    simp [startRun]

/-! ### The value returned by `main` -/

theorem main_log (env : Env) : (main env).log = (beforeReturn env).log := by
  unfold main returnStatus
  split <;> rfl

theorem main_fault (env : Env) : (main env).fault = (beforeReturn env).fault := by
  unfold main returnStatus
  split
  · rfl
  · rename_i h; rw [h]

theorem main_status (env : Env) : (main env).status = (beforeReturn env).status := by
  unfold main returnStatus
  split <;> rfl

theorem main_processCount (env : Env) :
    (main env).processCount = (beforeReturn env).processCount := by
  unfold main returnStatus
  split <;> rfl

theorem main_exit (env : Env) (code : Nat) :
    (main env).exit = some code ↔
      ((beforeReturn env).fault = none ∧
        code = (beforeReturn env).status ||| (beforeReturn env).childStatus) := by
  have hno := (acct_beforeReturn env).1.noexit
  unfold main returnStatus
  split
  · rename_i f h
    rw [hno, h]
    simp
  · rename_i h
    rw [h]
    simp [eq_comm]

theorem beforeReturn_of_failed_check (env : Env) (hc : checkArgs env ≠ SUCCESS) :
    beforeReturn env = startRun env := by
  unfold beforeReturn
  rw [if_neg hc]

/-- With an operating system that keeps its guarantees, records that fit the buffers
and a data set file that could be opened, the run reaches the `return` of `main`. -/
theorem main_returns (env : Env) (hw : WellBehaved env) (hfit : ArgsFit env)
    (hopen : env.fopen = true ∨ checkArgs env ≠ SUCCESS) : (beforeReturn env).fault = none := by
  by_cases hc : checkArgs env = SUCCESS
  · have hg := good_main hw
    cases hf : (beforeReturn env).fault with
    | none => rfl
    | some f =>
      exfalso
      rcases hg.faults f (by rw [main_fault, hf]) with ⟨_, ho⟩ | ⟨d, hd, hb⟩
      · rcases hopen with h | h
        · rw [h] at ho; simp at ho
        · exact h hc
      · have hfits := hfit d (hg.read d hd)
        rw [buildArgList_spec env.command d env.optargs hfits.1 hfits.2] at hb
        simp at hb
  · rw [beforeReturn_of_failed_check env hc]
    rfl

/-! ### getChildStatus -/

theorem getChildStatus_fst (s : Nat) (pid : Int) :
    (getChildStatus s pid).1 =
      (if WIFEXITED s then WEXITSTATUS s else if WIFSIGNALED s then WTERMSIG s else OTHER_ERROR) := by
  unfold getChildStatus
  split
  · rfl
  · split <;> rfl

theorem WIFEXITED_eq (s : Nat) : WIFEXITED s = decide (s % 128 = 0) := by
  unfold WIFEXITED
  rw [WTERMSIG_eq]
  by_cases h : s % 128 = 0 <;> simp [h]

theorem getChildStatus_zero_iff (s : Nat) (pid : Int) :
    (getChildStatus s pid).1 = 0 ↔ (WIFEXITED s = true ∧ WEXITSTATUS s = 0) := by
  rw [getChildStatus_fst]
  by_cases h1 : WIFEXITED s = true
  · simp [h1]
  · by_cases h2 : WIFSIGNALED s = true
    · have h3 := h2
      rw [WIFSIGNALED_eq] at h3
      have h4 : WTERMSIG s ≠ 0 := by
        rw [WTERMSIG_eq]
        simp at h3
        omega
      simp [h1, h2, h4]
    · simp [h1, h2, OTHER_ERROR]

/-! ## The claims -/

/-- C1. The value returned by `main` is 0 exactly when `checkArgs`, `initialize` and
every `createChild` call returned SUCCESS and the raw status of every reaped child is a
normal exit with exit code 0. The run reaches the `return` whenever the operating
system keeps its guarantees, the records fit the buffers and the data set file could be
opened. -/
theorem main_exit_zero_iff (env : Env) :
    (∀ code, (main env).exit = some code →
      (code = 0 ↔
        ((checkArgs env = SUCCESS ∧ initializeStatus env = SUCCESS ∧
            ∀ c ∈ createCalls (main env).log, c.status = SUCCESS) ∧
          ∀ c ∈ reapCalls (main env).log,
            WIFEXITED c.childStatus = true ∧ WEXITSTATUS c.childStatus = 0))) ∧
    (WellBehaved env → ArgsFit env → (env.fopen = true ∨ checkArgs env ≠ SUCCESS) →
      ∃ code, (main env).exit = some code) := by
  obtain ⟨ha, _, _⟩ := acct_beforeReturn env
  refine ⟨?_, ?_⟩
  · intro code hcode
    obtain ⟨hf, hval⟩ := (main_exit env code).mp hcode
    rw [hval, lor_eq_zero, ha.child hf, orAll_eq_zero, main_log]
    have hchild : (∀ x ∈ (reapCalls (beforeReturn env).log).map ReapCall.status, x = 0) ↔
        ∀ c ∈ reapCalls (beforeReturn env).log,
          WIFEXITED c.childStatus = true ∧ WEXITSTATUS c.childStatus = 0 := by
      constructor
      · intro h c hc
        rw [← getChildStatus_zero_iff c.childStatus c.childpid, ← ha.reapStatus c hc]
        exact h _ (List.mem_map_of_mem _ hc)
      · intro h x hx
        obtain ⟨c, hc, rfl⟩ := List.mem_map.mp hx
        rw [ha.reapStatus c hc, getChildStatus_zero_iff]
        exact h c hc
    rw [hchild]
    have hstat : (beforeReturn env).status = 0 ↔
        (checkArgs env = SUCCESS ∧ initializeStatus env = SUCCESS ∧
          ∀ c ∈ createCalls (beforeReturn env).log, c.status = SUCCESS) := by
      by_cases hc : checkArgs env = SUCCESS
      · have h1 := ha.st hf
        rw [ha.calls hc] at h1
        change (beforeReturn env).status = SUCCESS ↔ _
        rw [h1]
        simp only [List.mem_cons, List.mem_map, forall_eq_or_imp, true_and, hc]
        constructor
        · rintro ⟨h2, h3⟩
          exact ⟨h2, fun c hc' => h3 _ ⟨c, hc', rfl⟩⟩
        · rintro ⟨h2, h3⟩
          refine ⟨h2, ?_⟩
          rintro s ⟨c, hc', rfl⟩
          exact h3 c hc'
      · rw [beforeReturn_of_failed_check env hc]
        constructor
        · intro h; exact absurd h hc
        · intro h; exact absurd h.1 hc
    rw [hstat]
  · intro hw hfit hopen
    exact ⟨_, (main_exit env _).mpr ⟨main_returns env hw hfit hopen, rfl⟩⟩

/-- C2. The value returned by `main` is the bitwise OR of the controller's own status
(the status returned by the last of the calls of `checkArgs`, `initialize` and
`createChild`) and the codes that `getChildStatus` returned for the reaped children, so
every bit of every child's code is set in it. The run reaches the `return` whenever the
operating system keeps its guarantees, the records fit the buffers and the data set
file could be opened. -/
theorem main_exit_is_or_of_codes (env : Env) :
    (∀ code, (main env).exit = some code →
      code = (main env).status |||
        orAll ((reapCalls (main env).log).map
          (fun c => (getChildStatus c.childStatus c.childpid).1)) ∧
      (callStatuses (main env).log).getLast? = some (main env).status ∧
      ∀ c ∈ reapCalls (main env).log,
        (getChildStatus c.childStatus c.childpid).1 &&& code =
          (getChildStatus c.childStatus c.childpid).1) ∧
    (WellBehaved env → ArgsFit env → (env.fopen = true ∨ checkArgs env ≠ SUCCESS) →
      ∃ code, (main env).exit = some code) := by
  obtain ⟨ha, _, _⟩ := acct_beforeReturn env
  refine ⟨?_, ?_⟩
  · intro code hcode
    obtain ⟨hf, hval⟩ := (main_exit env code).mp hcode
    have hmap : (reapCalls (beforeReturn env).log).map
        (fun c => (getChildStatus c.childStatus c.childpid).1) =
        (reapCalls (beforeReturn env).log).map ReapCall.status := by
      apply List.map_congr_left
      intro c hc
      exact (ha.reapStatus c hc).symm
    rw [main_log, main_status, hmap]
    refine ⟨by rw [hval, ha.child hf], ha.last hf, ?_⟩
    intro c hc
    rw [← ha.reapStatus c hc, hval, ha.child hf]
    apply Nat.eq_of_testBit_eq
    intro i
    have h1 := congrArg (fun n => n.testBit i)
      (and_orAll _ c.status (List.mem_map_of_mem ReapCall.status hc))
    simp only [Nat.testBit_and, Nat.testBit_or] at h1 ⊢
    cases hb : c.status.testBit i
    · simp
    · rw [hb] at h1
      simp at h1
      simp [h1]
  · intro hw hfit hopen
    exact ⟨_, (main_exit env _).mpr ⟨main_returns env hw hfit hopen, rfl⟩⟩

/-- C4. Every value that `main` assigns to `processCount` (the initial 0, and the value
after each decrement and each increment in the launch loop and the drain loop) lies
between 0 and `numInstances`, whatever the records and whatever the outcomes of
`createChild`; and under the guarantees of the operating system `processCount` is, at
every `createChild` call, the number of children launched and not yet reaped. -/
theorem processCount_within_pool (env : Env) :
    (∀ v ∈ processCounts (main env).log, 0 ≤ v ∧ v ≤ env.numInstances) ∧
    (WellBehaved env → ∀ e ∈ createCalls (main env).log,
      (e.kernel.length : Int) = e.processCount ∧ 0 ≤ e.processCount ∧
        e.processCount < env.numInstances) := by
  refine ⟨?_, ?_⟩
  · rw [main_log]
    exact (acct_beforeReturn env).1.counts
  · intro hw e he
    obtain ⟨_, _, _, _, hlen, hm⟩ := (good_main hw).creates e he
    refine ⟨hlen, by rw [← hlen]; exact Int.natCast_nonneg _, ?_⟩
    cases hr : e.reaped with
    | none => rw [hr] at hm; exact hm.1
    | some call =>
      rw [hr] at hm
      have := hm.1
      omega

/-- C7. `getChildStatus` returns bits 8..15 of the raw status when the status is a
normal exit (`status % 128 = 0`), the signal number `status % 128`, which is not 0,
when the status is a termination by signal (`1 ≤ status % 128 ≤ 126`), and
OTHER_ERROR, which is 5, otherwise; so it returns 0 exactly for a normal exit with exit
code 0. -/
theorem getChildStatus_classifies (childStatus : Nat) (childpid : Int) :
    (getChildStatus childStatus childpid).1 =
      (if WIFEXITED childStatus then childStatus / 256 % 256
       else if WIFSIGNALED childStatus then childStatus % 128 else 5) ∧
    WIFEXITED childStatus = decide (childStatus % 128 = 0) ∧
    WIFSIGNALED childStatus = decide (1 ≤ childStatus % 128 ∧ childStatus % 128 ≤ 126) ∧
    ((getChildStatus childStatus childpid).1 = 0 ↔
      (WIFEXITED childStatus = true ∧ childStatus / 256 % 256 = 0)) := by
  refine ⟨?_, WIFEXITED_eq _, WIFSIGNALED_eq _, ?_⟩
  · rw [getChildStatus_fst, WEXITSTATUS_eq, WTERMSIG_eq]
    rfl
  · rw [getChildStatus_zero_iff, WEXITSTATUS_eq]

/-- C8. When the text `dataSubset optargs` fits `switches` and there are fewer than 99
tokens, the argument list that `main` builds is the command, the tokens of the record
in order, the tokens of the optional arguments in order, and a terminating NULL; a
token is a maximal non-empty run of characters other than space and newline. -/
theorem argument_vector_of_record (command dataSubset optargs : CStr)
    (hbuf : dataSubset.length + 1 + optargs.length + 1 ≤ SWITCHES_LEN)
    (htok : (specTokens dataSubset).length + (specTokens optargs).length < 99) :
    buildArgList command dataSubset optargs =
      Except.ok (some command ::
        ((specTokens dataSubset).map some ++ (specTokens optargs).map some ++ [none])) :=
  buildArgList_spec command dataSubset optargs hbuf htok

/-- Witness of C8: a record with a double space and a tab, and two optional arguments. -/
theorem argument_vector_of_record_witness :
    buildArgList ['e'] ['a', ' ', ' ', 'b', '\t', 'c', '\n'] ['-', 'x', ' ', 'y'] =
      Except.ok [some ['e'], some ['a'], some ['b', '\t', 'c'], some ['-', 'x'], some ['y'],
        none] :=
  argument_vector_of_record ['e'] ['a', ' ', ' ', 'b', '\t', 'c', '\n'] ['-', 'x', ' ', 'y']
    (by decide) (by decide)

/-! ### The example environments keep the guarantees of the operating system -/

theorem le_foldr_max (l : List Int) (b p : Int) (hp : p ∈ l) : p ≤ l.foldr max b := by
  induction l with
  | nil => simp at hp
  | cons x xs ih =>
    simp only [List.foldr_cons]
    rcases List.mem_cons.mp hp with h | h
    · subst h; exact le_max_left _ _
    · exact le_trans (ih h) (le_max_right _ _)

theorem nextPid_fresh (k : List Child) : nextPid k ∉ k.map Child.pid := by
  intro h
  have := le_foldr_max _ 100 _ h
  unfold nextPid at this
  omega

theorem wait_choice_mem (n : Nat) (k : List Child) (hk : k ≠ []) (f : Nat → Nat) :
    (match (if n = 0 then k.getLast? else k.head?) with
      | some c => (c.pid, f n)
      | none => ((-1 : Int), 0)).1 ∈ k.map Child.pid := by
  by_cases hn : n = 0
  · rw [if_pos hn]
    cases h : k.getLast? with
    | none => exact absurd (List.getLast?_eq_none_iff.mp h) hk
    | some c => exact List.mem_map_of_mem _ (List.mem_of_getLast?_eq_some h)
  · rw [if_neg hn]
    cases k with
    | nil => exact absurd rfl hk
    | cons c cs => simp

theorem demoEnv_wellBehaved : WellBehaved demoEnv := by
  refine ⟨?_, ?_⟩
  · intro n k hk
    exact wait_choice_mem n k hk (fun n => if n = 0 then 0x0500 else if n = 1 then 9 else 0)
  · intro n k p hp
    simp only [demoEnv, Option.some.injEq] at hp
    rw [← hp]
    exact nextPid_fresh k

theorem failEnv_wellBehaved : WellBehaved failEnv := by
  refine ⟨?_, ?_⟩
  · intro n k hk
    exact wait_choice_mem n k hk (fun n => if n = 0 then 0x0500 else if n = 1 then 9 else 0)
  · intro n k p hp
    simp only [failEnv] at hp
    split at hp
    · simp at hp
    · simp only [Option.some.injEq] at hp
      rw [← hp]
      exact nextPid_fresh k

theorem overflowEnv_wellBehaved : WellBehaved overflowEnv := demoEnv_wellBehaved

theorem overflowEnv_launchesSucceed : LaunchesSucceed overflowEnv := by
  intro n k
  exact ⟨_, _, _, rfl⟩

theorem demoEnv_argsFit : ArgsFit demoEnv := by
  unfold ArgsFit
  decide

theorem demoEnv_launchesSucceed : LaunchesSucceed demoEnv := by
  intro n k
  exact ⟨_, _, _, rfl⟩

/-- Inside the limits of the buffers the launch loop does what its comment says. When
`checkArgs` and `initialize` succeed and every `createChild` call succeeds, the pool
size is at least 1 and every run in which `main` returns has read all `M` strings that
`fgets` delivers, called `createChild` exactly `M` times, the `i`-th call with the
argument list built from the `i`-th of them, and completed `waitForChild` exactly `M`
times; with none it returns 0. `main` does return when the operating system keeps its
guarantees and every record, with the optional arguments, fits `switches` and
`pArgList`, and then the argument lists are the command, the tokens of the record and
the tokens of the optional arguments. Without that condition the statement fails, as
`overflowEnv` shows. -/
theorem main_launches_and_reaps_every_record (env : Env) (hcheck : checkArgs env = SUCCESS)
    (hinit : initializeStatus env = SUCCESS) (hlaunch : LaunchesSucceed env) :
    1 ≤ env.numInstances ∧
    (∀ code, (main env).exit = some code →
      recordsRead (main env).log = env.records ∧
      (createCalls (main env).log).map (fun c => Except.ok c.args) =
        env.records.map (fun d => buildArgList env.command d env.optargs) ∧
      (∀ c ∈ createCalls (main env).log, c.status = SUCCESS) ∧
      (createCalls (main env).log).length = env.records.length ∧
      (reapCalls (main env).log).length = env.records.length ∧
      (env.records = [] → code = 0)) ∧
    (WellBehaved env → ArgsFit env →
      ∃ code, (main env).exit = some code ∧
        (createCalls (main env).log).map CreateCall.args =
          env.records.map (fun d => some env.command ::
            ((specTokens d).map some ++ (specTokens env.optargs).map some ++ [none]))) := by
  have hN := checkArgs_success env hcheck
  obtain ⟨ha, hpc, hrec⟩ := acct_beforeReturn env
  have hopen : env.fopen = true := ((initializeStatus_success env).mp hinit).2
  have hall : ∀ c ∈ createCalls (beforeReturn env).log, c.status = SUCCESS := by
    intro c hc
    by_contra hne
    obtain ⟨n, k, hbad⟩ := ha.launched c hc hne
    obtain ⟨o, e, p, hl⟩ := hlaunch n k
    rw [hl] at hbad
    simp at hbad
  have hreturned : ∀ code, (main env).exit = some code →
      recordsRead (main env).log = env.records ∧
      (createCalls (main env).log).map (fun c => Except.ok c.args) =
        env.records.map (fun d => buildArgList env.command d env.optargs) ∧
      (∀ c ∈ createCalls (main env).log, c.status = SUCCESS) ∧
      (createCalls (main env).log).length = env.records.length ∧
      (reapCalls (main env).log).length = env.records.length ∧
      (env.records = [] → code = 0) := by
    intro code hcode
    obtain ⟨hf, hval⟩ := (main_exit env code).mp hcode
    have hst : (beforeReturn env).status = SUCCESS := by
      rw [ha.st hf, ha.calls hcheck]
      intro s hs
      simp only [List.mem_cons, List.mem_map] at hs
      rcases hs with h | h | ⟨c, hc, h⟩
      · exact h
      · exact h.trans hinit
      · exact h ▸ hall c hc
    have hread := hrec hcheck hf hst
    have hargs := ha.args hf
    rw [hread, List.map_nil, List.append_nil] at hargs
    have hlen : (createCalls (beforeReturn env).log).length = env.records.length := by
      have := congrArg List.length hargs
      simpa using this
    have hcount := ha.cnt hf
    have hfilter : (createCalls (beforeReturn env).log).filter (fun c => c.status = SUCCESS) =
        createCalls (beforeReturn env).log := by
      apply List.filter_eq_self.mpr
      intro c hc
      simpa using hall c hc
    rw [hfilter] at hcount
    have hpc0 := ha.pc hN hf
    have hpc1 := hpc hf
    have hreaps : ((reapCalls (beforeReturn env).log).length : Int) = env.records.length := by
      rw [← hlen]
      omega
    rw [main_log]
    refine ⟨hread, hargs, hall, hlen, by exact_mod_cast hreaps, ?_⟩
    intro hnil
    rw [hval, hst, ha.child hf]
    have : reapCalls (beforeReturn env).log = [] := by
      apply List.eq_nil_of_length_eq_zero
      rw [hnil] at hreaps
      exact_mod_cast hreaps
    rw [this]
    rfl
  refine ⟨hN, hreturned, ?_⟩
  intro hw hfit
  have hf := main_returns env hw hfit (Or.inl hopen)
  have hcode := (main_exit env _).mpr ⟨hf, rfl⟩
  refine ⟨_, hcode, ?_⟩
  have hargs := (hreturned _ hcode).2.1
  have hinj : Function.Injective
      (Except.ok : List (Option CStr) → Except Fault (List (Option CStr))) := by
    intro a b h
    exact Except.ok.inj h
  apply List.map_injective_iff.mpr hinj
  rw [List.map_map, List.map_map]
  have hcomp : (Except.ok ∘ CreateCall.args : CreateCall → Except Fault (List (Option CStr))) =
      fun c => Except.ok c.args := rfl
  rw [hcomp, hargs]
  apply List.map_congr_left
  intro d hd
  have hfits := hfit d hd
  simp only [Function.comp]
  exact buildArgList_spec env.command d env.optargs hfits.1 hfits.2

/-- The example with two slots and three records: `main` returns 13 after three
launches and three reaps. -/
theorem main_launches_and_reaps_every_record_witness :
    (main demoEnv).exit = some 13 ∧
    recordsRead (main demoEnv).log = demoEnv.records ∧
    (createCalls (main demoEnv).log).length = 3 ∧
    (reapCalls (main demoEnv).log).length = 3 ∧
    ∃ code, (main demoEnv).exit = some code ∧
      (createCalls (main demoEnv).log).map CreateCall.args =
        demoEnv.records.map (fun d => some demoEnv.command ::
          ((specTokens d).map some ++ (specTokens demoEnv.optargs).map some ++ [none])) :=
  ⟨by decide, by decide, by decide, by decide,
    (main_launches_and_reaps_every_record demoEnv (by decide) (by decide)
      demoEnv_launchesSucceed).2.2 demoEnv_wellBehaved demoEnv_argsFit⟩

/-- C3. The code breaks the claim at `overflowEnv`. Argument checking and `initialize`
succeed, every `createChild` call would succeed, the operating system keeps its
guarantees, the pool size is 2 and the data set has `M = 1` record, of 199 characters,
with optional arguments of `OPTARGS_LEN` characters. `main` reads the record, and
`sprintf(switches, "%s %s\n", dataSubset, optargs)` then writes 401 characters into
`switches`, which holds `SWITCHES_LEN = 300` and the terminating NUL: the run ends in
that overflow with no call of `createChild`, no call of `waitForChild` and no value
returned, where the claim says one call of each and a return. -/
theorem long_record_overflows_switches :
    checkArgs overflowEnv = SUCCESS ∧ initializeStatus overflowEnv = SUCCESS ∧
    LaunchesSucceed overflowEnv ∧ WellBehaved overflowEnv ∧
    overflowEnv.numInstances = 2 ∧
    overflowEnv.records.length = 1 ∧
    (∀ d ∈ overflowEnv.records, d.length = 199 ∧
      (d ++ ' ' :: overflowEnv.optargs ++ ['\n']).length = 401 ∧
      sprintfSwitches d overflowEnv.optargs = Except.error Fault.switchesOverflow) ∧
    overflowEnv.optargs.length = OPTARGS_LEN ∧
    recordsRead (main overflowEnv).log = overflowEnv.records ∧
    (main overflowEnv).fault = some Fault.switchesOverflow ∧
    createCalls (main overflowEnv).log = [] ∧
    reapCalls (main overflowEnv).log = [] ∧
    (main overflowEnv).exit = none := by
  set_option maxRecDepth 100000 in
  refine ⟨by decide, by decide, overflowEnv_launchesSucceed, overflowEnv_wellBehaved,
    by decide, by decide, ?_, by decide, by decide, by decide, by decide, by decide,
    by decide⟩
  intro d hd
  rw [List.mem_singleton.mp hd]
  exact ⟨by decide, by decide, rfl⟩

/-- C6, as the code has it. A failed `createChild` call ends the launch loop: no event
after it in the record of the run is a record read or another `createChild` call. When
`main` returns after such a failure the value returned is not 0, and in every run that
returns every child that was launched has been reaped. -/
theorem launch_failure_ends_launch_loop (env : Env) :
    (main env).log.Pairwise
      (fun a b => ∀ c, a = Event.createChild c → c.status ≠ SUCCESS →
        b.record = none ∧ b.createCall = none) ∧
    (∀ code, (main env).exit = some code →
      (main env).processCount = 0 ∧
      (reapCalls (main env).log).length =
        ((createCalls (main env).log).filter (fun c => c.status = SUCCESS)).length ∧
      ((∃ c ∈ createCalls (main env).log, c.status ≠ SUCCESS) →
        code ≠ 0 ∧ (main env).status ≠ SUCCESS)) := by
  obtain ⟨ha, hpc, _⟩ := acct_beforeReturn env
  refine ⟨?_, ?_⟩
  · rw [main_log]
    exact ha.order
  · intro code hcode
    obtain ⟨hf, hval⟩ := (main_exit env code).mp hcode
    rw [main_log, main_processCount, main_status]
    have hzero : (beforeReturn env).processCount = 0 := by
      by_cases hc : checkArgs env = SUCCESS
      · have := ha.pc (checkArgs_success env hc) hf
        have := hpc hf
        omega
      · rw [beforeReturn_of_failed_check env hc]
        rfl
    refine ⟨hzero, ?_, ?_⟩
    · have := ha.cnt hf
      rw [hzero] at this
      have h2 : ((reapCalls (beforeReturn env).log).length : Int) =
          ((createCalls (beforeReturn env).log).filter (fun c => c.status = SUCCESS)).length := by
        omega
      exact_mod_cast h2
    · rintro ⟨c, hc, hne⟩
      have hst : (beforeReturn env).status ≠ SUCCESS := by
        intro hst
        have hall := (ha.st hf).mp hst
        apply hne
        apply hall
        simp only [callStatuses, List.mem_filterMap]
        simp only [createCalls, List.mem_filterMap] at hc
        obtain ⟨e, he, hec⟩ := hc
        refine ⟨e, he, ?_⟩
        cases e <;> simp [Event.createCall] at hec
        subst hec
        rfl
      refine ⟨?_, hst⟩
      rw [hval]
      intro h0
      exact hst ((lor_eq_zero _ _).mp h0).1

/-- C6, as the claim states it, fails: `fork` fails for the first of two records; `main`
reads only that record, calls `createChild` once and returns SYS_ERROR. -/
theorem launch_failure_skips_records :
    WellBehaved failEnv ∧ ArgsFit failEnv ∧
    checkArgs failEnv = SUCCESS ∧ initializeStatus failEnv = SUCCESS ∧
    failEnv.records = [['a', '\n'], ['b', '\n']] ∧
    recordsRead (main failEnv).log = [['a', '\n']] ∧
    (createCalls (main failEnv).log).map CreateCall.status = [SYS_ERROR] ∧
    (main failEnv).exit = some SYS_ERROR ∧
    ¬ ConsumesEveryRecord failEnv := by
  refine ⟨failEnv_wellBehaved, by unfold ArgsFit; decide, by decide, by decide, rfl,
    by decide, by decide, by decide, ?_⟩
  unfold ConsumesEveryRecord
  decide

/-- C9. Under the guarantees of the operating system (`wait` returns the process id of
an unreaped child; unreaped children have distinct process ids), in every
`waitForChild` call the scan of `getOutput` stops at an index inside the slot array,
which is the slot the reaped child was launched in; the run never reads an
indeterminate `pid`, never leaves the array and never uses a file name that was not
set. -/
theorem getOutput_scan_finds_slot (env : Env) (hw : WellBehaved env) :
    (∀ call ∈ reapCalls (main env).log,
      ∃ c, call.child = some c ∧ c.pid = call.childpid ∧ call.infoIndex = c.infoIndex ∧
        0 ≤ call.infoIndex ∧ call.infoIndex < env.numInstances) ∧
    (main env).fault ≠ some Fault.uninitRead ∧
    (main env).fault ≠ some Fault.outOfBounds ∧
    (main env).fault ≠ some Fault.badFileName ∧
    (main env).fault ≠ some Fault.noChild := by
  have hg := good_main hw
  have hfault : ∀ f, (main env).fault = some f →
      f = Fault.fcloseNull ∨ f = Fault.switchesOverflow ∨ f = Fault.argListOverflow := by
    intro f hf
    rcases hg.faults f hf with ⟨h, _⟩ | ⟨d, _, hb⟩
    · exact Or.inl h
    · exact Or.inr (buildArgList_fault _ _ _ _ hb)
  refine ⟨hg.reaps, ?_, ?_, ?_, ?_⟩ <;>
  · intro h
    rcases hfault _ h with h | h | h <;> simp at h

/-- Witness of C9: in the example the last scan, for the child in slot 1, passes slot 0,
which still holds the process id of the child reaped before. -/
theorem getOutput_scan_finds_slot_witness :
    WellBehaved demoEnv ∧
    (reapCalls (main demoEnv).log).map ReapCall.infoIndex = [1, 0, 1] ∧
    (main demoEnv).pInfo.map info_st.pid = [some 101, some 102] ∧
    ((∀ call ∈ reapCalls (main demoEnv).log,
      ∃ c, call.child = some c ∧ c.pid = call.childpid ∧ call.infoIndex = c.infoIndex ∧
        0 ≤ call.infoIndex ∧ call.infoIndex < demoEnv.numInstances) ∧
    (main demoEnv).fault ≠ some Fault.uninitRead ∧
    (main demoEnv).fault ≠ some Fault.outOfBounds ∧
    (main demoEnv).fault ≠ some Fault.badFileName ∧
    (main demoEnv).fault ≠ some Fault.noChild) :=
  ⟨demoEnv_wellBehaved, by decide, by decide,
    getOutput_scan_finds_slot demoEnv demoEnv_wellBehaved⟩

/-- C10. Under the guarantees of the operating system, every `createChild` call of
`main` gets an index inside the slot array whose slot holds no unreaped child, and no
two unreaped children share a slot. When the pool was not full the index is
`processCount` and the occupied slots are exactly `0 .. processCount-1`; when it was
full the index is the one the `waitForChild` call of the same iteration found, the slot
of the child just reaped. Once a `waitForChild` call was completed (the pool has been
full), every later `createChild` call is of the second kind. -/
theorem createChild_targets_free_slot (env : Env) (hw : WellBehaved env) :
    (∀ e ∈ createCalls (main env).log,
      0 ≤ e.infoIndex ∧ e.infoIndex < env.numInstances ∧
      (∀ c ∈ e.kernel, c.infoIndex ≠ e.infoIndex) ∧
      (e.kernel.map Child.infoIndex).Nodup ∧
      (e.kernel.length : Int) = e.processCount ∧
      match e.reaped with
      | none =>
        e.processCount < env.numInstances ∧ e.infoIndex = e.processCount ∧
        ∀ j, (∃ c ∈ e.kernel, c.infoIndex = j) ↔ (0 ≤ j ∧ j < e.processCount)
      | some call =>
        e.processCount = env.numInstances - 1 ∧ call.infoIndex = e.infoIndex ∧
        ∃ c, call.child = some c ∧ c.infoIndex = e.infoIndex) ∧
    (main env).log.Pairwise
      (fun a b => ∀ call e, a = Event.waitForChild call → b = Event.createChild e →
        e.reaped ≠ none) := by
  refine ⟨fun e he => (good_main hw).creates e he, ?_⟩
  rw [main_log]
  exact reuse_beforeReturn env

/-- Witness of C10: in the example the three calls get the indices 0, 1 and 1, the
last one after slot 1 was reaped. -/
theorem createChild_targets_free_slot_witness :
    WellBehaved demoEnv ∧
    (createCalls (main demoEnv).log).map (fun e => (e.infoIndex, e.kernel.map Child.infoIndex)) =
      [(0, []), (1, [0]), (1, [0])] ∧
    ((∀ e ∈ createCalls (main demoEnv).log,
      0 ≤ e.infoIndex ∧ e.infoIndex < demoEnv.numInstances ∧
      (∀ c ∈ e.kernel, c.infoIndex ≠ e.infoIndex) ∧
      (e.kernel.map Child.infoIndex).Nodup ∧
      (e.kernel.length : Int) = e.processCount ∧
      match e.reaped with
      | none =>
        e.processCount < demoEnv.numInstances ∧ e.infoIndex = e.processCount ∧
        ∀ j, (∃ c ∈ e.kernel, c.infoIndex = j) ↔ (0 ≤ j ∧ j < e.processCount)
      | some call =>
        e.processCount = demoEnv.numInstances - 1 ∧ call.infoIndex = e.infoIndex ∧
        ∃ c, call.child = some c ∧ c.infoIndex = e.infoIndex) ∧
    (main demoEnv).log.Pairwise
      (fun a b => ∀ call e, a = Event.waitForChild call → b = Event.createChild e →
        e.reaped ≠ none)) :=
  ⟨demoEnv_wellBehaved, by decide, createChild_targets_free_slot demoEnv demoEnv_wellBehaved⟩

end Cpc
